import Mathlib

/-!
Verification of the OpenAI-to-Gemini protocol translator (`src/worker.mjs`).

The JavaScript source is shallowly embedded here:

* strings of the SSE byte stream are modelled as `List Char` (the upstream
  `TextDecoderStream` yields text, so chunk boundaries fall on code points);
* the per-request mutable state of each `TransformStream` stage is passed
  explicitly (`buffer` for `parseStream`, the `last` array for
  `toOpenAiStream`);
* dynamically-typed JSON frames from the vendor are modelled by structures
  whose fields are `Option`s (`none` = the field is absent or has the wrong
  shape, matching the `!x` / `Array.isArray` guards of the source);
* property lookup on the `reasonsMap` / `fieldsMap` object literals walks the
  prototype chain: for a key naming an `Object.prototype` member the lookup
  yields the inherited member (a truthy function, or `Object.prototype`
  itself for `__proto__`), modelled by `ProtoMember` / `JLookup`, and a
  `finish_reason` holding such a member is dropped by `JSON.stringify`
  (functions) or rendered as `{}` (`__proto__`);
* `JSON.parse` of a payload line is abstracted by the `SLine` type: a line is
  empty, unparseable, or a parsed frame;
* request-side generation options are kept as an association list in object
  iteration order, matching the `for key in req` loop.

Fields such as `id`, `model` and `created` (a fresh timestamp per chunk) are
constant or time-dependent and are not modelled; no claim mentions them.
-/

namespace OpenAIGemini

/-! ## Frame Reassembler (`parseStream` / `parseStreamFlush`)

`const responseLineRE = /^data: (.*)(?:\n\n|\r\r|\r\n\r\n)/;`

`.` does not match a LineTerminator (LF, CR, U+2028 LINE SEPARATOR, U+2029
PARAGRAPH SEPARATOR), and the regex is anchored, so a match exists iff the
buffer starts with `"data: "`, followed by a maximal run of
non-LineTerminator characters, followed by one of the three terminators; the
captured group is that run. -/

/-- Characters that `.` refuses to match in the source's regex: the four
ECMAScript LineTerminators. -/
def isNlChar (c : Char) : Bool :=
  c = '\n' || c = '\r' || c = '\u2028' || c = '\u2029'

/-- Match one of the three record terminators `\n\n | \r\r | \r\n\r\n` at the
front of the list, returning the remainder.  The three alternatives are
mutually exclusive on their first two characters, so trying them in the
regex's order is a plain prefix test. -/
def stripTerm (l : List Char) : Option (List Char) :=
  if l.take 2 = "\n\n".toList then some (l.drop 2)
  else if l.take 2 = "\r\r".toList then some (l.drop 2)
  else if l.take 4 = "\r\n\r\n".toList then some (l.drop 4)
  else none

/-- `buffer.match(responseLineRE)`: on success returns the captured payload
(group 1) and the buffer remainder after the whole match. -/
def matchLine (buf : List Char) : Option (List Char × List Char) :=
  if buf.take 6 = "data: ".toList then
    match stripTerm ((buf.drop 6).dropWhile (fun c => !(isNlChar c))) with
    | some rest => some ((buf.drop 6).takeWhile (fun c => !(isNlChar c)), rest)
    | none => none
  else none

/-- The `do { match … } while (true)` loop of `parseStream`: repeatedly match
a leading record, emit its payload, and trim the buffer.  The loop consumes at
least one character per iteration, so `buf.length` fuel is enough. -/
def drainFuel : Nat → List Char → List (List Char) × List Char
  | 0, buf => ([], buf)
  | fuel + 1, buf =>
    match matchLine buf with
    | some (q, rest) =>
      let r := drainFuel fuel rest
      (q :: r.1, r.2)
    | none => ([], buf)

/-- Drain the buffer of all complete leading records. -/
def drain (buf : List Char) : List (List Char) × List Char :=
  drainFuel buf.length buf

/-- One `parseStream(chunk, controller)` call: `if (!chunk) return;` then
append the chunk to the buffer and drain. -/
def parseStreamStep (buffer chunk : List Char) : List (List Char) × List Char :=
  if chunk.isEmpty then ([], buffer)
  else drain (buffer ++ chunk)

/-- Feed a sequence of chunks through `parseStream`, collecting all emitted
payloads and the final buffer. -/
def parseStreamRun (buffer : List Char) : List (List Char) → List (List Char) × List Char
  | [] => ([], buffer)
  | c :: cs =>
    let r := parseStreamStep buffer c
    let r2 := parseStreamRun r.2 cs
    (r.1 ++ r2.1, r2.2)

/-- `parseStreamFlush`: a non-empty leftover buffer is emitted as-is
downstream.  `parseStreamAll` is the whole reassembler on a finite stream. -/
def parseStreamAll (chunks : List (List Char)) : List (List Char) :=
  let r := parseStreamRun [] chunks
  r.1 ++ (if r.2.isEmpty then [] else [r.2])

/-! ## Vendor frame data model -/

/-- `usageMetadata` of a vendor frame; each count may be absent. -/
structure GUsage where
  promptTokenCount : Option Int := none
  candidatesTokenCount : Option Int := none
  totalTokenCount : Option Int := none
  deriving DecidableEq, Repr

/-- One element of `candidate.content.parts`; `text` may be absent. -/
structure GPart where
  text : Option String := none
  deriving DecidableEq, Repr

/-- `candidate.content`; `parts = none` models a missing or non-array value
(the `Array.isArray(cand.content.parts)` guard). -/
structure GContentV where
  parts : Option (List GPart) := none
  deriving DecidableEq, Repr

/-- One vendor candidate. -/
structure GCand where
  index : Option Nat := none
  content : Option GContentV := none
  finishReason : Option String := none
  deriving DecidableEq, Repr

/-- One parsed vendor frame (the envelope).  `candidates = none` models a
missing or non-array value. -/
structure VFrame where
  candidates : Option (List GCand) := none
  usageMetadata : Option GUsage := none
  modelVersion : Option String := none
  deriving DecidableEq, Repr

/-! ## Candidate transcription (`reasonsMap`, `SEP`, `transformCandidates`) -/

/-- A member inherited from `Object.prototype` by every object literal.
`fn name` is a function-valued member (carrying the function's `name`
property — for the key `"constructor"` the value is the `Object` function,
hence `fn "Object"`); `protoObj` is the value of the `__proto__` accessor,
`Object.prototype` itself.  All of them are truthy.  When such a member is
written into an emitted object, `JSON.stringify` later drops the property
(functions) or renders it as `{}` (`Object.prototype`, which has no
enumerable own properties); when one is used as a property key
(`cfg[matchedKey] = …`) the key is the member's string coercion, which is a
different string for each member and never a real config field name. -/
inductive ProtoMember where
  | fn (name : String)
  | protoObj
  deriving DecidableEq, Repr

/-- Lookup on `Object.prototype`: the property names every object literal
inherits in the V8-based workers runtime (the standard members plus the
Annex-B getter/setter utilities). -/
def objectProtoMember (k : String) : Option ProtoMember :=
  if k = "__proto__" then some .protoObj
  else if k = "constructor" then some (.fn "Object")
  else if k = "hasOwnProperty" then some (.fn "hasOwnProperty")
  else if k = "isPrototypeOf" then some (.fn "isPrototypeOf")
  else if k = "propertyIsEnumerable" then some (.fn "propertyIsEnumerable")
  else if k = "toLocaleString" then some (.fn "toLocaleString")
  else if k = "toString" then some (.fn "toString")
  else if k = "valueOf" then some (.fn "valueOf")
  else if k = "__defineGetter__" then some (.fn "__defineGetter__")
  else if k = "__defineSetter__" then some (.fn "__defineSetter__")
  else if k = "__lookupGetter__" then some (.fn "__lookupGetter__")
  else if k = "__lookupSetter__" then some (.fn "__lookupSetter__")
  else none

/-- The result of an unguarded property read `obj[k]` on an object literal:
an own (string-valued) entry, a member inherited from `Object.prototype`, or
`undefined`. -/
inductive JLookup where
  | str (s : String)
  | proto (m : ProtoMember)
  | jsUndefined
  deriving DecidableEq, Repr

/-- The fixed vendor finish-reason table (`reasonsMap`), read with the
prototype chain: `reasonsMap[r]` for a key like `"toString"` is not
`undefined` but the inherited `Object.prototype` member. -/
def reasonsMap (r : String) : JLookup :=
  if r = "STOP" then .str "stop"
  else if r = "MAX_TOKENS" then .str "length"
  else if r = "SAFETY" then .str "content_filter"
  else if r = "RECITATION" then .str "content_filter"
  else
    match objectProtoMember r with
    | some m => .proto m
    | none => .jsUndefined

/-- The fixed part separator (`SEP`). -/
def SEP : String := "\n\n|>"

/-- A value left in a `finish_reason` property: a string, or an inherited
`Object.prototype` member (possible because the prototype-chain lookup is
truthy, so the `||` fallbacks do not run). -/
inductive FinishVal where
  | str (s : String)
  | proto (m : ProtoMember)
  deriving DecidableEq, Repr

/-- Whether `JSON.stringify` drops the property holding this value from the
serialized output: it does exactly for function values. -/
def droppedByStringify : FinishVal → Bool
  | .proto (.fn _) => true
  | _ => false

/-- `reasonsMap[cand.finishReason] || cand.finishReason || "error"` — the
empty string is falsy in JavaScript, so it falls to `"error"`, while an
inherited `Object.prototype` member found by the lookup is truthy and is
kept as-is. -/
def resolveFinish : Option String → FinishVal
  | some r =>
    match reasonsMap r with
    | .str m => .str m
    | .proto m => .proto m
    | .jsUndefined => if r = "" then .str "error" else .str r
  | none => .str "error"

/-- The content string computed by `transformCandidates` for one candidate,
including its defensive branches for missing `content` / non-array `parts`. -/
def candContentText (cand : GCand) : String :=
  match cand.content with
  | some ct =>
    match ct.parts with
    | some parts => String.intercalate SEP (parts.map (fun p => p.text.getD ""))
    | none => "API返回了不完整的内容"
  | none => "无法获取内容"

/-- Result of `transformCandidates(key, cand)` before it is packed under the
`message`/`delta` key. -/
structure TCRes where
  index : Nat
  role : String
  content : String
  finish_reason : FinishVal
  deriving DecidableEq, Repr

/-- `transformCandidates` of the source, with its `if (!cand)` branch for a
missing candidate (`data.candidates[0]` on an empty array). -/
def transformCandidates : Option GCand → TCRes
  | none =>
    { index := 0, role := "assistant", content := "处理候选项时出错", finish_reason := .str "error" }
  | some c =>
    { index := c.index.getD 0
      role := "assistant"
      content := candContentText c
      finish_reason := resolveFinish c.finishReason }

/-- OpenAI usage block produced by `transformUsage` (`|| 0` defaults). -/
structure OUsage where
  completion_tokens : Int
  prompt_tokens : Int
  total_tokens : Int
  deriving DecidableEq, Repr

/-- `transformUsage`, with its `if (!data)` zero fallback. -/
def transformUsage : Option GUsage → OUsage
  | none => { completion_tokens := 0, prompt_tokens := 0, total_tokens := 0 }
  | some d =>
    { completion_tokens := d.candidatesTokenCount.getD 0
      prompt_tokens := d.promptTokenCount.getD 0
      total_tokens := d.totalTokenCount.getD 0 }

/-! ## Stream Translator (`transformResponseStream`, `toOpenAiStream`,
`toOpenAiStreamFlush`) -/

/-- The `delta` object of a streamed choice.  `role` is deleted
(`delete item.delta.role`) for non-first chunks; `delta = {}` on stop. -/
structure TDelta where
  role : Option String := none
  content : Option String := none
  deriving DecidableEq, Repr

/-- One element of `choices` in an emitted `chat.completion.chunk`.
`finish_reason = none` models JSON `null`. -/
structure OChoice where
  index : Nat
  delta : TDelta
  finish_reason : Option FinishVal
  deriving DecidableEq, Repr

/-- An emitted `chat.completion.chunk` object.  `usage = none` models an
absent field, `usage = some none` models `"usage": null`, and
`usage = some (some u)` models attached totals. -/
structure OChunk where
  choices : List OChoice
  usage : Option (Option OUsage) := none
  deriving DecidableEq, Repr

/-- An SSE frame emitted to the client: either one serialized chunk or the
literal `data: [DONE]` sentinel. -/
inductive OEvent where
  | chunk (c : OChunk)
  | done
  deriving DecidableEq, Repr

/-- `transformCandidatesDelta(cand)`: the mutable `item` before
`transformResponseStream` adjusts it. -/
def transformCandidatesDelta (cand : Option GCand) : Nat × TDelta × FinishVal :=
  let r := transformCandidates cand
  (r.index, { role := some r.role, content := some r.content }, r.finish_reason)

/-- `transformResponseStream(data, stop, first)` of the source.  `data = none`
models the `undefined` holes of the `last` array: reading `.candidates` of
`undefined` throws, the surrounding `try` catches, and `null` is returned —
likewise for `data.candidates[0]` when `candidates` is not an array. -/
def transformResponseStream (incl : Bool) (data : Option VFrame) (stop first : Bool) :
    Option OChunk :=
  match data with
  | none => none
  | some f =>
    match f.candidates with
    | none => none
    | some cl =>
      let item := transformCandidatesDelta cl.head?
      if item.2.2 = FinishVal.str "error" ∧ ¬stop ∧ ¬first then none
      else
        let delta1 : TDelta := if stop then {} else item.2.1
        let fr : Option FinishVal := if stop then some item.2.2 else none
        let delta2 : TDelta :=
          if first then { delta1 with content := some "" } else { delta1 with role := none }
        let usage : Option (Option OUsage) :=
          if f.usageMetadata.isSome && incl then
            some (if stop then some (transformUsage f.usageMetadata) else none)
          else none
        some { choices := [{ index := item.1, delta := delta2, finish_reason := fr }]
               usage := usage }

/-- A line handed to `toOpenAiStream` by the reassembler: JavaScript-falsy
(`if (!line) return`), not parseable as JSON (`JSON.parse` throws), or a
parsed vendor frame. -/
inductive SLine where
  | empty
  | malformed
  | frame (f : VFrame)
  deriving DecidableEq, Repr

/-- `this.last[i]`: absent positions and holes read as `undefined`. -/
def lastGet (st : List (Option VFrame)) (i : Nat) : Option VFrame :=
  (st.get? i).join

/-- `this.last[i] = data`: JavaScript array assignment, extending the array
with holes when `i` is beyond its current length. -/
def lastSet : List (Option VFrame) → Nat → VFrame → List (Option VFrame)
  | [], 0, f => [some f]
  | [], i + 1, f => none :: lastSet [] i f
  | _ :: rest, 0, f => some f :: rest
  | o :: rest, i + 1, f => o :: lastSet rest i f

/-- The synthesized error candidate list used when a malformed or
candidate-less frame arrives before any output. -/
def errCandidates : List GCand :=
  [{ finishReason := some "error"
     content := some { parts := some [{ text := some "" }] }
     index := some 0 }]

/-- The synthesized candidate list substituted for a detected ping frame. -/
def pongCandidates : List GCand :=
  [{ finishReason := some "stop"
     content := some { parts := some [{ text := some "pong" }] }
     index := some 0 }]

/-- The stream-mode ping detection: no candidates, but usage metadata with a
tiny prompt count and a model version. -/
def isPing (f : VFrame) : Bool :=
  f.candidates.isNone && f.usageMetadata.isSome && f.modelVersion.isSome &&
    (match f.usageMetadata with
     | some u => match u.promptTokenCount with
       | some n => n ≤ 5
       | none => false
     | none => false)

/-- The frame actually recorded in `last` by the main block of
`toOpenAiStream`: the primary candidate's index normalized in place by
`cand.index = cand.index || 0`. -/
def mainFrame (f : VFrame) (c : GCand) (cs : List GCand) : VFrame :=
  { f with candidates := some ({ c with index := some (c.index.getD 0) } :: cs) }

/-- The main `try` block of `toOpenAiStream`, entered once `data.candidates`
is known to be a non-empty array: normalize `cand.index`, emit the header
chunk for a first-seen index, record the frame in `last`, and emit a content
chunk when the candidate has content (the index normalization leaves
`cand.content` unchanged). -/
def toOpenAiMain (incl : Bool) (st : List (Option VFrame)) (f : VFrame) (isError : Bool) :
    List OChunk × List (Option VFrame) :=
  match f.candidates with
  | some (c :: cs) =>
    let idx := c.index.getD 0
    if isError ∧ st.length > 0 then ([], st)
    else
      let headerOut :=
        if (lastGet st idx).isNone then
          match transformResponseStream incl (some (mainFrame f c cs)) false true with
          | some ch => [ch]
          | none => []
        else []
      let st' := lastSet st idx (mainFrame f c cs)
      let contentOut :=
        if c.content.isSome then
          match transformResponseStream incl (some (mainFrame f c cs)) false false with
          | some ch => [ch]
          | none => []
        else []
      (headerOut ++ contentOut, st')
  | _ => ([], st)

/-- The defensive checks of `toOpenAiStream` on a parsed frame: ping
substitution, then missing/non-array `candidates`, then empty `candidates`;
a broken frame is skipped once output has begun and synthesized into an
error candidate otherwise. -/
def toOpenAiChecks (incl : Bool) (st : List (Option VFrame)) (f : VFrame) (isError : Bool) :
    List OChunk × List (Option VFrame) :=
  if isPing f then
    toOpenAiMain incl st { f with candidates := some pongCandidates } isError
  else
    match f.candidates with
    | none =>
      if st.length > 0 then ([], st)
      else toOpenAiMain incl st { f with candidates := some errCandidates } true
    | some [] =>
      if st.length > 0 then ([], st)
      else toOpenAiMain incl st { f with candidates := some errCandidates } true
    | some (_ :: _) => toOpenAiMain incl st f isError

/-- One `toOpenAiStream(chunk, controller)` call, returning the emitted
chunks and the updated `last` array. -/
def toOpenAiStep (incl : Bool) (st : List (Option VFrame)) :
    SLine → List OChunk × List (Option VFrame)
  | .empty => ([], st)
  | .malformed =>
    if st.length > 0 then ([], st)
    else toOpenAiChecks incl st { candidates := some errCandidates } true
  | .frame f => toOpenAiChecks incl st f false

/-- `toOpenAiStreamFlush`: when anything was recorded, emit one terminal
chunk per recorded frame and then the `[DONE]` sentinel; otherwise nothing. -/
def toOpenAiStreamFlush (incl : Bool) (st : List (Option VFrame)) : List OEvent :=
  if st.length > 0 then
    (st.filterMap fun o => (transformResponseStream incl o true false).map OEvent.chunk)
      ++ [OEvent.done]
  else []

/-- Feed a sequence of payload lines through `toOpenAiStream`. -/
def runSteps (incl : Bool) (st : List (Option VFrame)) :
    List SLine → List OChunk × List (Option VFrame)
  | [] => ([], st)
  | l :: ls =>
    let r := toOpenAiStep incl st l
    let r2 := runSteps incl r.2 ls
    (r.1 ++ r2.1, r2.2)

/-- The whole streaming translator on a finite upstream: all per-line chunks
followed by the flush output. -/
def runTranslator (incl : Bool) (lines : List SLine) : List OEvent :=
  (runSteps incl [] lines).1.map OEvent.chunk ++
    toOpenAiStreamFlush incl (runSteps incl [] lines).2

/-! ## Non-stream Response Transformer (`transformCandidatesMessage`,
`processCompletionsResponse`) -/

/-- The `message` object of a non-streaming choice. -/
structure OMessage where
  role : String
  content : String
  deriving DecidableEq, Repr

/-- One element of `choices` in a non-streaming `chat.completion`. -/
structure MsgChoice where
  index : Nat
  message : OMessage
  finish_reason : FinishVal
  deriving DecidableEq, Repr

/-- `transformCandidatesMessage(cand)`. -/
def transformCandidatesMessage (cand : Option GCand) : MsgChoice :=
  let r := transformCandidates cand
  { index := r.index
    message := { role := r.role, content := r.content }
    finish_reason := r.finish_reason }

/-- The `choices` array built by `processCompletionsResponse`, including its
defensive branches: null body, ping detection, missing `candidates`, empty
`candidates`.  `none` models a JSON-null response body. -/
def processChoices : Option VFrame → List MsgChoice
  | none =>
    [{ index := 0, message := { role := "assistant", content := "抱歉，服务暂时无法提供回答。" }
       finish_reason := .str "error" }]
  | some d =>
    if isPing d then
      [{ index := 0, message := { role := "assistant", content := "pong" }
         finish_reason := .str "stop" }]
    else
      match d.candidates with
      | none =>
        [{ index := 0, message := { role := "assistant", content := "API服务返回了异常数据结构。" }
           finish_reason := .str "error" }]
      | some [] =>
        [{ index := 0, message := { role := "assistant", content := "API服务无法生成回答。" }
           finish_reason := .str "error" }]
      | some cs => cs.map (fun c => transformCandidatesMessage (some c))

/-! ## Request Transformer (`transformMsg`, `transformMessages`,
`transformConfig`, and the pre-upstream phase of `handleCompletions`)

Inbound messages are modelled with scalar (string-or-null) content only;
array contents (multi-part messages, image fetching) are outside this
embedding — no claim concerns them. -/

/-- An inbound OpenAI-format chat message with scalar content. -/
structure OMsg where
  role : Option String := none
  content : Option String := none
  deriving DecidableEq, Repr

/-- `parts` of a vendor content object: `transformMsg` builds an array, while
the synthetic turn of `transformMessages` pushes a bare `{ text: " " }`
object. -/
inductive GPartsVal where
  | arr (l : List GPart)
  | single (p : GPart)
  deriving DecidableEq, Repr

/-- One element of the vendor request's `contents` (or its
`system_instruction`, whose `role` was deleted). -/
structure GMsgContent where
  role : Option String := none
  parts : GPartsVal := .arr []
  deriving DecidableEq, Repr

/-- `transformMsg({role, content})` for scalar content:
`parts.push({ text: content })`. -/
def transformMsg (role : Option String) (content : Option String) : GMsgContent :=
  { role := role, parts := .arr [{ text := content }] }

/-- Result of `transformMessages`. -/
structure TMsgs where
  system_instruction : Option GMsgContent := none
  contents : List GMsgContent := []
  deriving DecidableEq, Repr

/-- The loop body of `transformMessages`: a system message (its role deleted)
becomes the system instruction, every other role is renamed
(`assistant` → `model`, everything else → `user`) and appended. -/
def transformMessagesStep (acc : Option GMsgContent × List GMsgContent) (item : OMsg) :
    Option GMsgContent × List GMsgContent :=
  if item.role = some "system" then
    (some (transformMsg none item.content), acc.2)
  else
    let r := if item.role = some "assistant" then "model" else "user"
    (acc.1, acc.2 ++ [transformMsg (some r) item.content])

/-- `transformMessages(messages)`, including the synthetic
`{ role: "model", parts: { text: " " } }` turn pushed when the only input was
a system instruction.  `none` models an absent `messages` field
(`if (!messages) return;`). -/
def transformMessages : Option (List OMsg) → Option TMsgs
  | none => none
  | some msgs =>
    let r := msgs.foldl transformMessagesStep (none, [])
    let contents :=
      if r.1.isSome && r.2.isEmpty then
        r.2 ++ [{ role := some "model", parts := .single { text := some " " } }]
      else r.2
    some { system_instruction := r.1, contents := contents }

/-! ### Generation config (`fieldsMap`, `transformConfig`) -/

/-- A JSON value, as far as the config translation needs it. -/
inductive JValue where
  | null
  | bool (b : Bool)
  | num (n : Int)
  | str (s : String)
  | arr (elems : List JValue)
  | obj (fields : List (String × JValue))

/-- JavaScript truthiness of a JSON value. -/
def jsTruthy : JValue → Bool
  | .null => false
  | .bool b => b
  | .num n => n ≠ 0
  | .str s => s ≠ ""
  | .arr _ => true
  | .obj _ => true

/-- Errors raised while building the vendor request: an `HttpError` with its
status, or the `TypeError` thrown by `"enum" in x` when `x` is a primitive. -/
inductive ReqError where
  | http (status : Nat) (msg : String)
  | typeError
  deriving DecidableEq, Repr

/-- The JavaScript `"enum" in v` test: property lookup on objects and arrays,
a `TypeError` on primitives. -/
def jsHasEnum : JValue → Except ReqError Bool
  | .obj kvs => .ok (kvs.any (fun kv => kv.1 = "enum"))
  | .arr _ => .ok false
  | _ => .error .typeError

/-- The `fieldsMap` rename table, read with the prototype chain
(`const matchedKey = fieldsMap[key]`): for a request key like `"toString"`
the lookup is not `undefined` but the inherited `Object.prototype` member. -/
def fieldsMapFn (k : String) : JLookup :=
  if k = "stop" then .str "stopSequences"
  else if k = "n" then .str "candidateCount"
  else if k = "max_tokens" then .str "maxOutputTokens"
  else if k = "max_completion_tokens" then .str "maxOutputTokens"
  else if k = "temperature" then .str "temperature"
  else if k = "top_p" then .str "topP"
  else if k = "top_k" then .str "topK"
  else if k = "frequency_penalty" then .str "frequencyPenalty"
  else if k = "presence_penalty" then .str "presencePenalty"
  else
    match objectProtoMember k with
    | some m => .proto m
    | none => .jsUndefined

/-- The vendor generation config object being built by `transformConfig`.
`junk` holds the properties written through an inherited `fieldsMap` member
(`cfg[matchedKey] = req[key]` with `matchedKey` a function or
`Object.prototype`): the JS property key is the string coercion of the
member, which is pairwise distinct across members and distinct from every
real config field name, so the entries are keyed here by the member
itself. -/
structure GenCfg where
  stopSequences : Option JValue := none
  candidateCount : Option JValue := none
  maxOutputTokens : Option JValue := none
  temperature : Option JValue := none
  topP : Option JValue := none
  topK : Option JValue := none
  frequencyPenalty : Option JValue := none
  presencePenalty : Option JValue := none
  responseMimeType : Option String := none
  responseSchema : Option JValue := none
  junk : List (ProtoMember × JValue) := []

/-- `cfg[matchedKey] = req[key]` for a matched vendor field name. -/
def setCfgField (c : GenCfg) (name : String) (v : JValue) : GenCfg :=
  if name = "stopSequences" then { c with stopSequences := some v }
  else if name = "candidateCount" then { c with candidateCount := some v }
  else if name = "maxOutputTokens" then { c with maxOutputTokens := some v }
  else if name = "temperature" then { c with temperature := some v }
  else if name = "topP" then { c with topP := some v }
  else if name = "topK" then { c with topK := some v }
  else if name = "frequencyPenalty" then { c with frequencyPenalty := some v }
  else if name = "presencePenalty" then { c with presencePenalty := some v }
  else c

/-- JavaScript property assignment on the junk entries: overwrite in place
when the key already exists, append otherwise. -/
def setJunkEntry : List (ProtoMember × JValue) → ProtoMember → JValue →
    List (ProtoMember × JValue)
  | [], m, v => [(m, v)]
  | (m0, v0) :: rest, m, v =>
    if m0 = m then (m0, v) :: rest else (m0, v0) :: setJunkEntry rest m v

/-- One iteration of the `for (let key in req)` loop: a matched own entry of
`fieldsMap` renames the key; an inherited `Object.prototype` member is also
truthy, so `cfg[matchedKey] = req[key]` writes a junk property; only
`undefined` (key on neither) is falsy and skips the write. -/
def applyField (c : GenCfg) (kv : String × JValue) : GenCfg :=
  match fieldsMapFn kv.1 with
  | .str name => setCfgField c name kv.2
  | .proto m => { c with junk := setJunkEntry c.junk m kv.2 }
  | .jsUndefined => c

/-- The junk evolution of one loop iteration, in isolation: exactly the
request keys naming an `Object.prototype` member write a junk entry (no
`fieldsMap` own key names such a member, and no such member name is a
`fieldsMap` own key). -/
def applyJunk (j : List (ProtoMember × JValue)) (kv : String × JValue) :
    List (ProtoMember × JValue) :=
  match objectProtoMember kv.1 with
  | some m => setJunkEntry j m kv.2
  | none => j

/-- `json_schema` member of an inbound `response_format`. -/
structure JsonSchemaField where
  schema : Option JValue := none

/-- An inbound (truthy) `response_format` object. -/
structure RespFormat where
  type : Option String := none
  json_schema : Option JsonSchemaField := none

/-- An inbound chat-completions request, as far as `transformConfig` and
`transformMessages` read it.  `fields` lists the request's top-level keys in
object-iteration order, as the `for key in req` loop sees them; unmapped keys
(`model`, `stream`, `messages`, …) may appear there and are ignored by the
loop.  `response_format = none` models an absent or falsy value. -/
structure CReq where
  messages : Option (List OMsg) := none
  fields : List (String × JValue) := []
  response_format : Option RespFormat := none

/-- `transformConfig(req)`: fold the rename table over the request keys, then
derive `responseSchema` / `responseMimeType` from `response_format`, throwing
`HttpError(400)` on an unsupported type. -/
def transformConfig (req : CReq) : Except ReqError GenCfg :=
  let cfg := req.fields.foldl applyField {}
  match req.response_format with
  | none => .ok cfg
  | some rf =>
    match rf.type with
    | some t =>
      if t = "json_schema" then
        let s? := rf.json_schema.bind (fun js => js.schema)
        let cfg := { cfg with responseSchema := s? }
        match s? with
        | some s =>
          if jsTruthy s then
            match jsHasEnum s with
            | .ok true => .ok { cfg with responseMimeType := some "text/x.enum" }
            | .ok false => .ok { cfg with responseMimeType := some "application/json" }
            | .error e => .error e
          else .ok { cfg with responseMimeType := some "application/json" }
        | none => .ok { cfg with responseMimeType := some "application/json" }
      else if t = "json_object" then
        .ok { cfg with responseMimeType := some "application/json" }
      else if t = "text" then
        .ok { cfg with responseMimeType := some "text/plain" }
      else .error (.http 400 "Unsupported response_format.type")
    | none => .error (.http 400 "Unsupported response_format.type")

/-- `transformRequest(req)` minus the constant `safetySettings` block: the
spread of `transformMessages` plus the generation config. -/
def transformRequest (req : CReq) : Except ReqError (Option TMsgs × GenCfg) :=
  (transformConfig req).map (fun cfg => (transformMessages req.messages, cfg))

/-- What `handleCompletions` does before (or instead of) the upstream call. -/
inductive EarlyAction where
  | upstream (body : Option TMsgs × GenCfg)
  | errorResponse (status : Nat)

/-- The pre-upstream phase of `handleCompletions`: building the vendor request
body.  A throw during `transformRequest` is caught by the function's own
`try … catch`, which answers the client with an HTTP **200** error payload
(`fixCors({ status: 200 })`, for streaming and non-streaming alike) and never
reaches the upstream call. -/
def completionsEarly (req : CReq) : EarlyAction :=
  match transformRequest req with
  | .ok body => .upstream body
  | .error _ => .errorResponse 200

/-! ## Derived shapes and spec-side definitions

`headerChunk`, `contentChunk` and `flushTerminalChunk` name the three chunk
shapes the translator can emit; `specFlushReason` and `specConfigOfFields`
restate the specification's wording (finish-reason table with its default,
and field-mapping table) so the code-side functions can be compared with
them. -/

/-- A frame whose `candidates` is a non-empty array — the shape every frame
recorded in `last` has. -/
def goodFrame (f : VFrame) : Prop :=
  ∃ c cs, f.candidates = some (c :: cs)

/-- Index of the primary candidate (`data.candidates[0].index || 0`). -/
def candIdx0 (f : VFrame) : Nat :=
  match f.candidates with
  | some (c :: _) => c.index.getD 0
  | _ => 0

/-- Finish reason of the primary candidate. -/
def headFinish (f : VFrame) : Option String :=
  match f.candidates with
  | some (c :: _) => c.finishReason
  | _ => none

/-- Content text of the primary candidate. -/
def candText0 (f : VFrame) : String :=
  match f.candidates with
  | some (c :: _) => candContentText c
  | _ => ""

/-- The header chunk emitted for a first-seen candidate index. -/
def headerChunk (incl : Bool) (f : VFrame) : OChunk :=
  { choices := [{ index := candIdx0 f
                  delta := { role := some "assistant", content := some "" }
                  finish_reason := none }]
    usage := if f.usageMetadata.isSome && incl then some none else none }

/-- The content-delta chunk emitted for a frame that carries content. -/
def contentChunk (incl : Bool) (f : VFrame) : OChunk :=
  { choices := [{ index := candIdx0 f
                  delta := { role := none, content := some (candText0 f) }
                  finish_reason := none }]
    usage := if f.usageMetadata.isSome && incl then some none else none }

/-- The single choice of a header chunk. -/
def hdrChoiceOf (f : VFrame) : OChoice :=
  { index := candIdx0 f
    delta := { role := some "assistant", content := some "" }
    finish_reason := none }

/-- The single choice of a content-delta chunk. -/
def contChoiceOf (f : VFrame) : OChoice :=
  { index := candIdx0 f
    delta := { role := none, content := some (candText0 f) }
    finish_reason := none }

/-- The specification's finish-reason resolution for a terminal chunk, with
the (amended) behaviour: the fixed table; unrecognized non-empty values
verbatim unless they name an `Object.prototype` member, in which case the
prototype-chain lookup yields the inherited member (later dropped from the
serialized chunk for function members, rendered `{}` for `__proto__`); and
`"error"` when the recorded frame carries no reason (or an empty-string
one). -/
def specFlushReason : Option String → FinishVal
  | some r =>
    if r = "STOP" then .str "stop"
    else if r = "MAX_TOKENS" then .str "length"
    else if r = "SAFETY" then .str "content_filter"
    else if r = "RECITATION" then .str "content_filter"
    else
      match objectProtoMember r with
      | some m => .proto m
      | none => if r = "" then .str "error" else .str r
  | none => .str "error"

/-- The single choice of a flush-time terminal chunk: empty delta and the
resolved finish reason. -/
def termChoiceOf (f : VFrame) : OChoice :=
  { index := candIdx0 f
    delta := {}
    finish_reason := some (specFlushReason (headFinish f)) }

/-- The terminal chunk emitted at flush for one recorded frame: empty delta,
resolved finish reason, and usage totals exactly when that frame carried
usage metadata and usage reporting was requested. -/
def flushTerminalChunk (incl : Bool) (f : VFrame) : OChunk :=
  { choices := [termChoiceOf f]
    usage :=
      if f.usageMetadata.isSome && incl then some (some (transformUsage f.usageMetadata))
      else none }

/-- The single choice of an emitted chunk, when it has exactly one. -/
def chunkChoice (c : OChunk) : Option OChoice :=
  match c.choices with
  | [ch] => some ch
  | _ => none

/-- All choices for candidate index `i`, in emission order, in a chunk list. -/
def eventsForC (i : Nat) (out : List OChunk) : List OChoice :=
  out.filterMap fun c =>
    match chunkChoice c with
    | some ch => if ch.index = i then some ch else none
    | none => none

/-- All choices for candidate index `i`, in emission order, in an event
list (the `[DONE]` sentinel carries no choice). -/
def eventsFor (i : Nat) (out : List OEvent) : List OChoice :=
  out.filterMap fun e =>
    match e with
    | .chunk c =>
      match chunkChoice c with
      | some ch => if ch.index = i then some ch else none
      | none => none
    | .done => none

/-- A header choice: role `assistant`, empty content, null finish reason. -/
def isHeaderCh (ch : OChoice) : Prop :=
  ch.delta.role = some "assistant" ∧ ch.delta.content = some "" ∧ ch.finish_reason = none

/-- A content-delta choice: role deleted, null finish reason. -/
def isContentCh (ch : OChoice) : Prop :=
  ch.delta.role = none ∧ ch.finish_reason = none

/-- A terminal choice: empty delta, non-null finish reason. -/
def isTerminalCh (ch : OChoice) : Prop :=
  ch.delta = {} ∧ ch.finish_reason ≠ none

/-- Whether an emitted event carries usage totals. -/
def hasTotals : OEvent → Bool
  | .chunk c =>
    match c.usage with
    | some (some _) => true
    | _ => false
  | .done => false

/-- The running invariant of the stream translator: every emitted chunk has a
single choice, and for every candidate index the output so far is empty when
the index is unrecorded, and one header followed by content deltas when it is
recorded — in which case the recorded frame has a non-empty candidate list
whose primary index is that index. -/
def StInv (st : List (Option VFrame)) (out : List OChunk) : Prop :=
  (∀ ch ∈ out, ∃ c, ch.choices = [c]) ∧
  ∀ i, match lastGet st i with
    | none => eventsForC i out = []
    | some f => goodFrame f ∧ candIdx0 f = i ∧
        ∃ hdr mids, eventsForC i out = hdr :: mids ∧ isHeaderCh hdr ∧ ∀ m ∈ mids, isContentCh m

/-- The value a JSON object field ends up with after the `for key in req`
loop when several source keys write to it: the value of the last occurrence
among `keys`, if any. -/
def lastVal (keys : List String) : List (String × JValue) → Option JValue
  | [] => none
  | kv :: rest =>
    match lastVal keys rest with
    | some w => some w
    | none => if kv.1 ∈ keys then some kv.2 else none

/-- Assoc lookup among the junk entries (the value the JS property holds,
since distinct members coerce to distinct property keys). -/
def junkVal : List (ProtoMember × JValue) → ProtoMember → Option JValue
  | [], _ => none
  | (m0, v) :: rest, m => if m0 = m then some v else junkVal rest m

/-- The value the junk property of an inherited member ends up with: the
last value among the request keys naming that member, if any. -/
def lastProtoVal (m : ProtoMember) : List (String × JValue) → Option JValue
  | [] => none
  | kv :: rest =>
    match lastProtoVal m rest with
    | some w => some w
    | none => if objectProtoMember kv.1 = some m then some kv.2 else none

/-- The specification's field-mapping table, stated declaratively: each
vendor option holds the (last) value of its source key(s); nothing else is
set — except the junk properties accumulated through inherited `fieldsMap`
members, which the original claim did not foresee. -/
def specConfigOfFields (fields : List (String × JValue)) : GenCfg :=
  { stopSequences := lastVal ["stop"] fields
    candidateCount := lastVal ["n"] fields
    maxOutputTokens := lastVal ["max_tokens", "max_completion_tokens"] fields
    temperature := lastVal ["temperature"] fields
    topP := lastVal ["top_p"] fields
    topK := lastVal ["top_k"] fields
    frequencyPenalty := lastVal ["frequency_penalty"] fields
    presencePenalty := lastVal ["presence_penalty"] fields
    responseMimeType := none
    responseSchema := none
    junk := fields.foldl applyJunk [] }

/-- The specification's round-trip example candidate: two text parts
`["Hello, ", "world!"]` and a vendor finish reason. -/
def exampleCand (i : Nat) (reason : String) : GCand :=
  { index := some i
    content := some { parts := some [{ text := some "Hello, " }, { text := some "world!" }] }
    finishReason := some reason }

/-! ## Theorems

### Frame Reassembler: split invariance (claim C3) -/

theorem toList_data_length : ("data: ".toList).length = 6 := rfl

theorem take6_data (x : List Char) : ("data: ".toList ++ x).take 6 = "data: ".toList := by
  have h := List.take_left "data: ".toList x
  rwa [toList_data_length] at h

theorem drop6_data (x : List Char) : ("data: ".toList ++ x).drop 6 = x := by
  have h := List.drop_left "data: ".toList x
  rwa [toList_data_length] at h

theorem stripTerm_some_lt {l r : List Char} (h : stripTerm l = some r) :
    r.length < l.length := by
  unfold stripTerm at h
  split_ifs at h with h1 h2 h3
  · cases h
    have hlen := congrArg List.length h1
    simp only [List.length_take] at hlen
    have h2' : ("\n\n".toList).length = 2 := rfl
    simp only [List.length_drop]
    omega
  · cases h
    have hlen := congrArg List.length h2
    simp only [List.length_take] at hlen
    have h2' : ("\r\r".toList).length = 2 := rfl
    simp only [List.length_drop]
    omega
  · cases h
    have hlen := congrArg List.length h3
    simp only [List.length_take] at hlen
    have h4' : ("\r\n\r\n".toList).length = 4 := rfl
    simp only [List.length_drop]
    omega

theorem matchLine_some_facts {buf : List Char} {q rest : List Char}
    (h : matchLine buf = some (q, rest)) :
    6 ≤ buf.length ∧ rest.length < buf.length := by
  unfold matchLine at h
  split_ifs at h with hd
  · have h6 : 6 ≤ buf.length := by
      have hlen := congrArg List.length hd
      simp only [List.length_take, toList_data_length] at hlen
      omega
    refine ⟨h6, ?_⟩
    cases hst : stripTerm ((buf.drop 6).dropWhile fun c => !(isNlChar c)) with
    | none => rw [hst] at h; cases h
    | some r =>
      rw [hst] at h
      simp only [Option.some.injEq, Prod.mk.injEq] at h
      obtain ⟨-, hr⟩ := h
      subst hr
      have hlt := stripTerm_some_lt hst
      have hdw : ((buf.drop 6).dropWhile fun c => !(isNlChar c)).length ≤ (buf.drop 6).length :=
        (List.dropWhile_suffix _).length_le
      simp only [List.length_drop] at hdw
      omega

theorem matchLine_nil : matchLine ([] : List Char) = none := by decide

theorem drainFuel_congr :
    ∀ (f1 f2 : Nat) (buf : List Char), buf.length ≤ f1 → buf.length ≤ f2 →
      drainFuel f1 buf = drainFuel f2 buf := by
  intro f1
  induction f1 with
  | zero =>
    intro f2 buf h1 _
    have hb : buf = [] := List.eq_nil_of_length_eq_zero (Nat.le_zero.mp h1)
    subst hb
    cases f2 with
    | zero => rfl
    | succ m => simp [drainFuel, matchLine_nil]
  | succ k ih =>
    intro f2 buf h1 h2
    cases f2 with
    | zero =>
      have hb : buf = [] := List.eq_nil_of_length_eq_zero (Nat.le_zero.mp h2)
      subst hb
      simp [drainFuel, matchLine_nil]
    | succ m =>
      cases hm : matchLine buf with
      | none => simp only [drainFuel, hm]
      | some qr =>
        obtain ⟨q, rest⟩ := qr
        have hf := matchLine_some_facts hm
        simp only [drainFuel, hm]
        rw [ih m rest (by omega) (by omega)]

theorem drain_of_none {buf : List Char} (h : matchLine buf = none) :
    drain buf = ([], buf) := by
  unfold drain
  cases hl : buf.length with
  | zero => rfl
  | succ n => simp [drainFuel, h]

theorem drain_of_some {buf q rest : List Char} (h : matchLine buf = some (q, rest)) :
    drain buf = (q :: (drain rest).1, (drain rest).2) := by
  have hf := matchLine_some_facts h
  unfold drain
  cases hl : buf.length with
  | zero => omega
  | succ n =>
    simp only [drainFuel, h]
    rw [drainFuel_congr n rest.length rest (by omega) (by omega)]

theorem matchLine_proper_prefix {p t s u : List Char}
    (hp : ∀ c ∈ p, isNlChar c = false)
    (ht : t = "\n\n".toList ∨ t = "\r\r".toList ∨ t = "\r\n\r\n".toList)
    (hsu : s ++ u = "data: ".toList ++ p ++ t) (hu : u ≠ []) :
    matchLine s = none := by
  by_cases h6 : 6 ≤ s.length
  · have htake : s.take 6 = "data: ".toList := by
      have h1 : (s ++ u).take 6 = s.take 6 := List.take_append_of_le_length h6
      rw [hsu, List.append_assoc, take6_data] at h1
      exact h1.symm
    have hafter : s.drop 6 ++ u = p ++ t := by
      have h1 : (s ++ u).drop 6 = s.drop 6 ++ u := List.drop_append_of_le_length h6
      rw [hsu, List.append_assoc, drop6_data] at h1
      exact h1.symm
    have hstrip : stripTerm ((s.drop 6).dropWhile fun c => !(isNlChar c)) = none := by
      by_cases hal : (s.drop 6).length ≤ p.length
      · have ha : s.drop 6 = p.take (s.drop 6).length := by
          have h1 : (s.drop 6 ++ u).take (s.drop 6).length = s.drop 6 := by
            rw [List.take_append_of_le_length (Nat.le_refl _), List.take_of_length_le (Nat.le_refl _)]
          rw [hafter, List.take_append_of_le_length hal] at h1
          exact h1.symm
        have hall : ∀ c ∈ s.drop 6, (fun c => !(isNlChar c)) c = true := by
          intro c hc
          rw [ha] at hc
          simp [hp c (List.mem_of_mem_take hc)]
        rw [List.dropWhile_eq_nil_iff.mpr hall]
        decide
      · have hpl : p.length ≤ (s.drop 6).length := by omega
        have hps : p = (s.drop 6).take p.length := by
          have h1 : (s.drop 6 ++ u).take p.length = (s.drop 6).take p.length :=
            List.take_append_of_le_length hpl
          rw [hafter, List.take_left] at h1
          exact h1
        have hsplit : s.drop 6 = p ++ (s.drop 6).drop p.length := by
          conv_lhs => rw [← List.take_append_drop p.length (s.drop 6)]
          rw [← hps]
        have ht'u : (s.drop 6).drop p.length ++ u = t := by
          have h2 := hafter
          rw [hsplit, List.append_assoc] at h2
          exact List.append_cancel_left h2
        have hPp : ∀ c ∈ p, (fun c => !(isNlChar c)) c = true := by
          intro c hc; simp [hp c hc]
        rw [hsplit, List.dropWhile_append_of_pos hPp]
        have hlen' : ((s.drop 6).drop p.length).length < t.length := by
          have := congrArg List.length ht'u
          simp only [List.length_append] at this
          have : u.length ≥ 1 := List.length_pos.mpr hu
          omega
        have ht'take : (s.drop 6).drop p.length = t.take ((s.drop 6).drop p.length).length := by
          have h3 : ((s.drop 6).drop p.length ++ u).take ((s.drop 6).drop p.length).length
              = (s.drop 6).drop p.length := by
            rw [List.take_append_of_le_length (Nat.le_refl _),
              List.take_of_length_le (Nat.le_refl _)]
          rw [ht'u] at h3
          exact h3.symm
        rcases ht with rfl | rfl | rfl
        · have h2 : ("\n\n".toList).length = 2 := rfl
          have hc : ((s.drop 6).drop p.length).length = 0 ∨
              ((s.drop 6).drop p.length).length = 1 := by omega
          rcases hc with hc | hc <;> rw [hc] at ht'take <;> rw [ht'take] <;> decide
        · have h2 : ("\r\r".toList).length = 2 := rfl
          have hc : ((s.drop 6).drop p.length).length = 0 ∨
              ((s.drop 6).drop p.length).length = 1 := by omega
          rcases hc with hc | hc <;> rw [hc] at ht'take <;> rw [ht'take] <;> decide
        · have h4 : ("\r\n\r\n".toList).length = 4 := rfl
          have hc : ((s.drop 6).drop p.length).length = 0 ∨
              ((s.drop 6).drop p.length).length = 1 ∨
              ((s.drop 6).drop p.length).length = 2 ∨
              ((s.drop 6).drop p.length).length = 3 := by omega
          rcases hc with hc | hc | hc | hc <;> rw [hc] at ht'take <;> rw [ht'take] <;> decide
    simp only [matchLine, if_pos htake, hstrip]
  · unfold matchLine
    rw [if_neg]
    intro hEq
    have := congrArg List.length hEq
    simp only [List.length_take] at this
    have h6' : ("data: ".toList).length = 6 := rfl
    omega

theorem matchLine_record {p t : List Char}
    (hp : ∀ c ∈ p, isNlChar c = false)
    (ht : t = "\n\n".toList ∨ t = "\r\r".toList ∨ t = "\r\n\r\n".toList) :
    matchLine ("data: ".toList ++ p ++ t) = some (p, []) := by
  have htake : ("data: ".toList ++ p ++ t).take 6 = "data: ".toList := by
    rw [List.append_assoc]; exact take6_data _
  have hdrop : ("data: ".toList ++ p ++ t).drop 6 = p ++ t := by
    rw [List.append_assoc]; exact drop6_data _
  have hPp : ∀ c ∈ p, (fun c => !(isNlChar c)) c = true := by
    intro c hc; simp [hp c hc]
  unfold matchLine
  rw [if_pos htake, hdrop, List.dropWhile_append_of_pos hPp, List.takeWhile_append_of_pos hPp]
  rcases ht with rfl | rfl | rfl <;> simp [stripTerm, List.dropWhile, List.takeWhile, isNlChar]

theorem drain_record {p t : List Char}
    (hp : ∀ c ∈ p, isNlChar c = false)
    (ht : t = "\n\n".toList ∨ t = "\r\r".toList ∨ t = "\r\n\r\n".toList) :
    drain ("data: ".toList ++ p ++ t) = ([p], []) := by
  rw [drain_of_some (matchLine_record hp ht), drain_of_none matchLine_nil]

theorem parseStreamRun_empty_join :
    ∀ (cs : List (List Char)) (b : List Char), cs.flatten = [] → parseStreamRun b cs = ([], b) := by
  intro cs
  induction cs with
  | nil => intro b _; rfl
  | cons c cs ih =>
    intro b hj
    rw [List.flatten_cons, List.append_eq_nil] at hj
    obtain ⟨hc, hcs⟩ := hj
    subst hc
    simp only [parseStreamRun, parseStreamStep, List.isEmpty_nil, if_pos]
    rw [ih b hcs]
    rfl

theorem parseStreamRun_record {p t : List Char}
    (hp : ∀ c ∈ p, isNlChar c = false)
    (ht : t = "\n\n".toList ∨ t = "\r\r".toList ∨ t = "\r\n\r\n".toList) :
    ∀ (cs : List (List Char)) (s : List Char),
      s ++ cs.flatten = "data: ".toList ++ p ++ t →
      s.length < ("data: ".toList ++ p ++ t).length →
      parseStreamRun s cs = ([p], []) := by
  intro cs
  induction cs with
  | nil =>
    intro s hjoin hlen
    rw [List.flatten_nil, List.append_nil] at hjoin
    subst hjoin
    omega
  | cons c cs ih =>
    intro s hjoin hlen
    rw [List.flatten_cons, ← List.append_assoc] at hjoin
    by_cases hc : c.isEmpty
    · have hcnil : c = [] := List.isEmpty_iff.mp hc
      subst hcnil
      rw [List.append_nil] at hjoin
      simp only [parseStreamRun, parseStreamStep, List.isEmpty_nil, if_pos]
      rw [ih s hjoin hlen]
      rfl
    · simp only [parseStreamRun, parseStreamStep, hc, Bool.false_eq_true, if_false]
      by_cases hlt : (s ++ c).length < ("data: ".toList ++ p ++ t).length
      · have hnm : matchLine (s ++ c) = none := by
          refine matchLine_proper_prefix hp ht hjoin ?_
          intro hnil
          rw [hnil, List.append_nil] at hjoin
          rw [← hjoin] at hlt
          omega
        rw [drain_of_none hnm]
        rw [ih (s ++ c) hjoin hlt]
        rfl
      · have hlenEq := congrArg List.length hjoin
        simp only [List.length_append] at hlenEq hlt
        have h0 : cs.flatten.length = 0 := by omega
        have hjnil : cs.flatten = [] := List.eq_nil_of_length_eq_zero h0
        have hsc : s ++ c = "data: ".toList ++ p ++ t := by
          rw [hjnil, List.append_nil] at hjoin
          exact hjoin
        rw [hsc, drain_record hp ht, parseStreamRun_empty_join cs [] hjnil]
        rfl

/-- Claim C3 — corrected.  Feeding a complete SSE record (`"data: "`,
payload, blank-line terminator) to `parseStream` in any number of
arbitrarily-placed consecutive chunks yields exactly the one payload, with
nothing split, merged, reordered, or left in the buffer — in particular the
result is identical to feeding the record whole — *provided* the payload
contains no ECMAScript LineTerminator (LF, CR, U+2028, U+2029): those are
exactly the characters `.` refuses, so a record whose payload contains
U+2028/U+2029 (legal SSE line content) never matches `responseLineRE` at
all, and the raw unstripped record is instead emitted once, at end of
stream, by `parseStreamFlush`. -/
theorem parseStream_split_invariance (p t : List Char) (chunks : List (List Char))
    (hp : ∀ c ∈ p, isNlChar c = false)
    (ht : t = "\n\n".toList ∨ t = "\r\r".toList ∨ t = "\r\n\r\n".toList)
    (hsplit : chunks.flatten = "data: ".toList ++ p ++ t) :
    parseStreamAll chunks = [p] := by
  have hlen0 : ([] : List Char).length < ("data: ".toList ++ p ++ t).length := by
    simp only [List.length_nil, List.length_append, toList_data_length]
    omega
  have hrun := parseStreamRun_record hp ht chunks [] (by simpa using hsplit) hlen0
  unfold parseStreamAll
  rw [hrun]
  rfl

/-- Witness for C3: the record `"data: hi\n\n"` split as
`["data: h", "i\n\n"]` reassembles to the single payload `"hi"`. -/
theorem parseStream_split_invariance_witness :
    (∀ c ∈ ['h', 'i'], isNlChar c = false) ∧
      parseStreamAll ["data: h".toList, "i\n\n".toList] = [['h', 'i']] :=
  ⟨by decide,
   parseStream_split_invariance ['h', 'i'] "\n\n".toList _ (by decide) (Or.inl rfl) (by decide)⟩

/-- Counterexample for C3 as stated: U+2028 LINE SEPARATOR is a legal SSE
payload character but an ECMAScript LineTerminator, so `.` in
`responseLineRE` refuses it and the complete record `"data: a\u2028b\n\n"`
never matches — whole or split, the reassembler emits the raw record once at
flush instead of the stripped payload `"a\u2028b"`. -/
theorem payload_line_separator_counterexample :
    parseStreamAll ["data: a\u2028b\n\n".toList] = ["data: a\u2028b\n\n".toList] ∧
      parseStreamAll ["data: a".toList, "\u2028b\n\n".toList] =
        ["data: a\u2028b\n\n".toList] ∧
      (["data: a\u2028b\n\n".toList] : List (List Char)) ≠ ["a\u2028b".toList] := by
  decide

/-! ### Stream Translator: malformed first frame (claim C4) -/

/-- Claim C4 — confirmed.  A malformed (unparseable) frame arriving as the
very first frame of a stream is synthesized into an empty-content error
candidate: the client receives a header chunk (role `assistant`, empty
content, null finish reason), then a terminal chunk with
`finish_reason = "error"`, then the `[DONE]` sentinel.  Once anything has
been recorded for the request (`this.last` non-empty, which holds whenever
content has been emitted), a malformed frame is silently skipped and the
stream state is unchanged. -/
theorem malformed_first_frame_error_stream :
    (∀ incl, runTranslator incl [SLine.malformed] =
      [OEvent.chunk { choices := [{ index := 0
                                    delta := { role := some "assistant", content := some "" }
                                    finish_reason := none }]
                      usage := none },
       OEvent.chunk { choices := [{ index := 0
                                    delta := { role := none, content := none }
                                    finish_reason := some (.str "error") }]
                      usage := none },
       OEvent.done]) ∧
    (∀ incl st, st ≠ [] → toOpenAiStep incl st SLine.malformed = ([], st)) := by
  constructor
  · intro incl
    cases incl <;> decide
  · intro incl st h
    simp [toOpenAiStep, List.length_pos.mpr h]

/-- Witness for C4: the skip conjunct applied at a concrete non-empty
state. -/
theorem malformed_first_frame_error_stream_witness :
    toOpenAiStep false [some { candidates := some errCandidates }] SLine.malformed =
      ([], [some { candidates := some errCandidates }]) :=
  malformed_first_frame_error_stream.2 false _ (by decide)

/-! ### Stream Translator: the `[DONE]` sentinel (claim C1) -/

theorem lastSet_ne_nil : ∀ (st : List (Option VFrame)) (i : Nat) (f : VFrame),
    lastSet st i f ≠ [] := by
  intro st i f
  cases st <;> cases i <;> simp [lastSet]

theorem toOpenAiMain_nil {incl : Bool} {st : List (Option VFrame)} {f : VFrame}
    {isErr : Bool} (h : (toOpenAiMain incl st f isErr).2 = []) :
    (toOpenAiMain incl st f isErr).1 = [] ∧ st = [] := by
  unfold toOpenAiMain at h ⊢
  cases hc : f.candidates with
  | none => simp only [hc] at h ⊢; exact ⟨by trivial, h⟩
  | some l =>
    cases l with
    | nil => simp only [hc] at h ⊢; exact ⟨by trivial, h⟩
    | cons c cs =>
      simp only [hc] at h ⊢
      by_cases hie : isErr = true ∧ st.length > 0
      · simp only [if_pos hie] at h ⊢
        exact ⟨by trivial, h⟩
      · simp only [if_neg hie] at h ⊢
        exact absurd h (lastSet_ne_nil _ _ _)

theorem toOpenAiChecks_nil {incl : Bool} {st : List (Option VFrame)} {f : VFrame}
    {isErr : Bool} (h : (toOpenAiChecks incl st f isErr).2 = []) :
    (toOpenAiChecks incl st f isErr).1 = [] ∧ st = [] := by
  unfold toOpenAiChecks at h ⊢
  by_cases hping : isPing f = true
  · simp only [hping, if_pos] at h ⊢
    exact toOpenAiMain_nil h
  · simp only [hping, Bool.false_eq_true, if_false] at h ⊢
    cases hc : f.candidates with
    | none =>
      simp only [hc] at h ⊢
      by_cases hst : st.length > 0
      · simp only [if_pos hst] at h ⊢; exact ⟨by trivial, h⟩
      · simp only [if_neg hst] at h ⊢; exact toOpenAiMain_nil h
    | some l =>
      cases l with
      | nil =>
        simp only [hc] at h ⊢
        by_cases hst : st.length > 0
        · simp only [if_pos hst] at h ⊢; exact ⟨by trivial, h⟩
        · simp only [if_neg hst] at h ⊢; exact toOpenAiMain_nil h
      | cons c cs =>
        simp only [hc] at h ⊢
        exact toOpenAiMain_nil h

theorem toOpenAiStep_nil {incl : Bool} {st : List (Option VFrame)} {l : SLine}
    (h : (toOpenAiStep incl st l).2 = []) :
    (toOpenAiStep incl st l).1 = [] ∧ st = [] := by
  cases l with
  | empty => exact ⟨by trivial, h⟩
  | malformed =>
    by_cases hst : st.length > 0
    · simp only [toOpenAiStep, if_pos hst] at h ⊢
      exact ⟨by trivial, h⟩
    · simp only [toOpenAiStep, if_neg hst] at h ⊢
      exact toOpenAiChecks_nil h
  | frame f => exact toOpenAiChecks_nil h

theorem runSteps_nil (incl : Bool) (lines : List SLine) :
    ∀ st, (runSteps incl st lines).2 = [] →
      (runSteps incl st lines).1 = [] ∧ st = [] := by
  induction lines with
  | nil => intro st h; exact ⟨by trivial, h⟩
  | cons l ls ih =>
    intro st h
    simp only [runSteps] at h ⊢
    obtain ⟨h1, h2⟩ := ih (toOpenAiStep incl st l).2 h
    obtain ⟨h3, h4⟩ := toOpenAiStep_nil h2
    refine ⟨?_, h4⟩
    rw [h3, h1]
    rfl

/-- Claim C1 — corrected.  Either the translated stream is completely empty —
which happens exactly when no frame was ever recorded, e.g. when the upstream
ends without delivering a processable frame — or it ends with a `[DONE]`
sentinel that occurs nowhere else.  The original claim's "exactly one
`[DONE]`, always last" therefore holds whenever any output is produced at
all, but not for a stream that records nothing: then no `[DONE]` (and nothing
else) is emitted. -/
theorem done_sentinel_amended (incl : Bool) (lines : List SLine) :
    runTranslator incl lines = [] ∨
      ∃ pre, runTranslator incl lines = pre ++ [OEvent.done] ∧
        ∀ e ∈ pre, e ≠ OEvent.done := by
  unfold runTranslator
  by_cases h : (runSteps incl [] lines).2 = []
  · left
    obtain ⟨h1, -⟩ := runSteps_nil incl lines [] h
    rw [h1]
    unfold toOpenAiStreamFlush
    rw [h]
    simp
  · right
    refine ⟨(runSteps incl [] lines).1.map OEvent.chunk ++
        ((runSteps incl [] lines).2.filterMap fun o =>
          (transformResponseStream incl o true false).map OEvent.chunk), ?_, ?_⟩
    · unfold toOpenAiStreamFlush
      rw [if_pos (by simpa [List.length_pos] using h)]
      rw [List.append_assoc]
    · intro e he
      simp only [List.mem_append, List.mem_map, List.mem_filterMap] at he
      rcases he with ⟨c, -, rfl⟩ | ⟨o, -, hc⟩
      · simp
      · obtain ⟨c', -, rfl⟩ := Option.map_eq_some'.mp hc
        simp

/-- Counterexample for C1 as stated: a stream whose only delivered line is
empty (hence never processable) produces no output at all — in particular no
`data: [DONE]` sentinel, contradicting "exactly one `[DONE]` … including when
the upstream stream ends without ever delivering a processable frame". -/
theorem done_sentinel_counterexample :
    runTranslator false [SLine.empty] = [] ∧
      OEvent.done ∉ runTranslator false [SLine.empty] := by
  decide

/-! ### Stream Translator: per-index chunk discipline (claim C2) -/

theorem lastGet_nil (i : Nat) : lastGet [] i = none := by
  cases i <;> rfl

theorem lastGet_cons_zero (o : Option VFrame) (st : List (Option VFrame)) :
    lastGet (o :: st) 0 = o := by
  cases o <;> rfl

theorem lastGet_cons_succ (o : Option VFrame) (st : List (Option VFrame)) (k : Nat) :
    lastGet (o :: st) (k + 1) = lastGet st k := rfl

theorem lastSet_get_self :
    ∀ (i : Nat) (st : List (Option VFrame)) (f : VFrame),
      lastGet (lastSet st i f) i = some f := by
  intro i
  induction i with
  | zero => intro st f; cases st <;> rfl
  | succ n ih =>
    intro st f
    cases st with
    | nil =>
      show lastGet (none :: lastSet [] n f) (n + 1) = some f
      rw [lastGet_cons_succ]
      exact ih [] f
    | cons o rest =>
      show lastGet (o :: lastSet rest n f) (n + 1) = some f
      rw [lastGet_cons_succ]
      exact ih rest f

theorem lastSet_get_ne :
    ∀ (i : Nat) (st : List (Option VFrame)) (f : VFrame) (j : Nat), j ≠ i →
      lastGet (lastSet st i f) j = lastGet st j := by
  intro i
  induction i with
  | zero =>
    intro st f j hj
    cases st with
    | nil =>
      cases j with
      | zero => exact absurd rfl hj
      | succ k =>
        show lastGet [some f] (k + 1) = lastGet [] (k + 1)
        rw [lastGet_cons_succ, lastGet_nil, lastGet_nil]
    | cons o rest =>
      cases j with
      | zero => exact absurd rfl hj
      | succ k =>
        show lastGet (some f :: rest) (k + 1) = lastGet (o :: rest) (k + 1)
        rw [lastGet_cons_succ, lastGet_cons_succ]
  | succ n ih =>
    intro st f j hj
    cases st with
    | nil =>
      cases j with
      | zero =>
        show lastGet (none :: lastSet [] n f) 0 = lastGet [] 0
        rw [lastGet_cons_zero, lastGet_nil]
      | succ k =>
        show lastGet (none :: lastSet [] n f) (k + 1) = lastGet [] (k + 1)
        rw [lastGet_cons_succ, lastGet_nil]
        rw [ih [] f k (by omega), lastGet_nil]
    | cons o rest =>
      cases j with
      | zero =>
        show lastGet (o :: lastSet rest n f) 0 = lastGet (o :: rest) 0
        rw [lastGet_cons_zero, lastGet_cons_zero]
      | succ k =>
        show lastGet (o :: lastSet rest n f) (k + 1) = lastGet (o :: rest) (k + 1)
        rw [lastGet_cons_succ, lastGet_cons_succ]
        exact ih rest f k (by omega)

theorem resolveFinish_eq_spec (fr : Option String) :
    resolveFinish fr = specFlushReason fr := by
  cases fr with
  | none => rfl
  | some r =>
    by_cases h1 : r = "STOP"
    · subst h1; rfl
    · by_cases h2 : r = "MAX_TOKENS"
      · subst h2; rfl
      · by_cases h3 : r = "SAFETY"
        · subst h3; rfl
        · by_cases h4 : r = "RECITATION"
          · subst h4; rfl
          · cases hm : objectProtoMember r <;>
              simp [resolveFinish, reasonsMap, specFlushReason, h1, h2, h3, h4, hm]

theorem objectProtoMember_table_none :
    objectProtoMember "STOP" = none ∧ objectProtoMember "MAX_TOKENS" = none ∧
      objectProtoMember "SAFETY" = none ∧ objectProtoMember "RECITATION" = none := by
  decide

theorem specFlushReason_proto {r : String} {m : ProtoMember}
    (h : objectProtoMember r = some m) : specFlushReason (some r) = .proto m := by
  have ht := objectProtoMember_table_none
  by_cases h1 : r = "STOP"
  · subst h1; rw [ht.1] at h; cases h
  · by_cases h2 : r = "MAX_TOKENS"
    · subst h2; rw [ht.2.1] at h; cases h
    · by_cases h3 : r = "SAFETY"
      · subst h3; rw [ht.2.2.1] at h; cases h
      · by_cases h4 : r = "RECITATION"
        · subst h4; rw [ht.2.2.2] at h; cases h
        · simp [specFlushReason, h1, h2, h3, h4, h]

theorem specFlushReason_verbatim {r : String}
    (h1 : r ∉ ["STOP", "MAX_TOKENS", "SAFETY", "RECITATION"]) (h2 : r ≠ "")
    (h3 : objectProtoMember r = none) : specFlushReason (some r) = .str r := by
  have hS : ¬r = "STOP" := fun he => h1 (by simp [he])
  have hM : ¬r = "MAX_TOKENS" := fun he => h1 (by simp [he])
  have hSa : ¬r = "SAFETY" := fun he => h1 (by simp [he])
  have hR : ¬r = "RECITATION" := fun he => h1 (by simp [he])
  simp [specFlushReason, hS, hM, hSa, hR, h2, h3]

theorem trs_first {incl : Bool} {f : VFrame} {c : GCand} {cs : List GCand}
    (h : f.candidates = some (c :: cs)) :
    transformResponseStream incl (some f) false true = some (headerChunk incl f) := by
  simp only [transformResponseStream, headerChunk, candIdx0, h, transformCandidatesDelta,
    transformCandidates]
  simp

theorem trs_mid {incl : Bool} {f : VFrame} {c : GCand} {cs : List GCand}
    (h : f.candidates = some (c :: cs)) :
    transformResponseStream incl (some f) false false =
      if resolveFinish c.finishReason = FinishVal.str "error" then none
      else some (contentChunk incl f) := by
  simp only [transformResponseStream, contentChunk, candIdx0, candText0, h,
    transformCandidatesDelta, transformCandidates]
  by_cases he : resolveFinish c.finishReason = FinishVal.str "error" <;> simp [he]

theorem trs_stop {incl : Bool} {f : VFrame} {c : GCand} {cs : List GCand}
    (h : f.candidates = some (c :: cs)) :
    transformResponseStream incl (some f) true false =
      some (flushTerminalChunk incl f) := by
  simp only [transformResponseStream, flushTerminalChunk, termChoiceOf, candIdx0, headFinish, h,
    transformCandidatesDelta, transformCandidates]
  simp [resolveFinish_eq_spec]

theorem trs_none (incl : Bool) (stop first : Bool) :
    transformResponseStream incl none stop first = none := rfl

theorem trs_no_candidates {incl : Bool} {f : VFrame} (h : f.candidates = none)
    (stop first : Bool) :
    transformResponseStream incl (some f) stop first = none := by
  simp only [transformResponseStream, h]

theorem toOpenAiMain_char {incl : Bool} {st : List (Option VFrame)} {f : VFrame}
    {isErr : Bool} {c : GCand} {cs : List GCand}
    (hc : f.candidates = some (c :: cs)) (hni : ¬(isErr = true ∧ st.length > 0)) :
    toOpenAiMain incl st f isErr =
      ((if (lastGet st (c.index.getD 0)).isNone then
          [headerChunk incl (mainFrame f c cs)]
        else []) ++
       (if c.content.isSome then
          (if resolveFinish c.finishReason = FinishVal.str "error" then []
           else [contentChunk incl (mainFrame f c cs)])
        else []),
       lastSet st (c.index.getD 0) (mainFrame f c cs)) := by
  unfold toOpenAiMain
  rw [hc]
  simp only [if_neg hni]
  have hmf : (mainFrame f c cs).candidates =
      some ({ c with index := some (c.index.getD 0) } :: cs) := rfl
  rw [trs_first hmf, trs_mid hmf]
  have hfr : ({ c with index := some (c.index.getD 0) } : GCand).finishReason
      = c.finishReason := rfl
  have hco : ({ c with index := some (c.index.getD 0) } : GCand).content = c.content := rfl
  rw [hfr, hco]
  by_cases hseen : (lastGet st (c.index.getD 0)).isNone
  · by_cases hcon : c.content.isSome
    · by_cases herr : resolveFinish c.finishReason = FinishVal.str "error" <;>
        simp [mainFrame, hseen, hcon, herr]
    · simp [mainFrame, hseen, hcon]
  · by_cases hcon : c.content.isSome
    · by_cases herr : resolveFinish c.finishReason = FinishVal.str "error" <;>
        simp [mainFrame, hseen, hcon, herr]
    · simp [mainFrame, hseen, hcon]

theorem eventsForC_append (i : Nat) (a b : List OChunk) :
    eventsForC i (a ++ b) = eventsForC i a ++ eventsForC i b := by
  simp [eventsForC]

theorem eventsForC_single_chunk (i : Nat) (ch : OChoice) (u : Option (Option OUsage)) :
    eventsForC i [{ choices := [ch], usage := u }] = if ch.index = i then [ch] else [] := by
  by_cases h : ch.index = i <;> simp [eventsForC, chunkChoice, h]

theorem eventsForC_nil (i : Nat) : eventsForC i [] = [] := rfl

theorem eventsForC_headerChunk (i : Nat) (incl : Bool) (f : VFrame) :
    eventsForC i [headerChunk incl f] =
      if candIdx0 f = i then [hdrChoiceOf f] else [] :=
  eventsForC_single_chunk i _ _

theorem eventsForC_contentChunk (i : Nat) (incl : Bool) (f : VFrame) :
    eventsForC i [contentChunk incl f] =
      if candIdx0 f = i then [contChoiceOf f] else [] :=
  eventsForC_single_chunk i _ _

theorem isHeaderCh_hdrChoiceOf (f : VFrame) : isHeaderCh (hdrChoiceOf f) :=
  ⟨rfl, rfl, rfl⟩

theorem isContentCh_contChoiceOf (f : VFrame) : isContentCh (contChoiceOf f) :=
  ⟨rfl, rfl⟩

theorem goodFrame_mainFrame (f : VFrame) (c : GCand) (cs : List GCand) :
    goodFrame (mainFrame f c cs) :=
  ⟨_, _, rfl⟩

theorem candIdx0_mainFrame (f : VFrame) (c : GCand) (cs : List GCand) :
    candIdx0 (mainFrame f c cs) = c.index.getD 0 := rfl

theorem toOpenAiMain_inv {incl : Bool} {st : List (Option VFrame)} {out : List OChunk}
    {f : VFrame} {isErr : Bool} {c : GCand} {cs : List GCand}
    (hc : f.candidates = some (c :: cs)) (h : StInv st out) :
    StInv (toOpenAiMain incl st f isErr).2 (out ++ (toOpenAiMain incl st f isErr).1) := by
  by_cases hni : isErr = true ∧ st.length > 0
  · have hmain : toOpenAiMain incl st f isErr = ([], st) := by
      simp only [toOpenAiMain, hc, if_pos hni]
    rw [hmain, List.append_nil]
    exact h
  · rw [toOpenAiMain_char hc hni]
    have hCcases :
        (if c.content.isSome then
          (if resolveFinish c.finishReason = FinishVal.str "error" then []
           else [contentChunk incl (mainFrame f c cs)])
         else []) = [] ∨
        (if c.content.isSome then
          (if resolveFinish c.finishReason = FinishVal.str "error" then []
           else [contentChunk incl (mainFrame f c cs)])
         else []) = [contentChunk incl (mainFrame f c cs)] := by
      by_cases h1 : c.content.isSome
      · by_cases h2 : resolveFinish c.finishReason = FinishVal.str "error" <;> simp [h1, h2]
      · simp [h1]
    cases hseen : lastGet st (c.index.getD 0) with
    | none =>
      simp only [Option.isNone_none, if_true]
      constructor
      · intro ch hch
        rcases List.mem_append.mp hch with hch | hch
        · exact h.1 ch hch
        · rcases List.mem_append.mp hch with hch | hch
          · rw [List.mem_singleton.mp hch]
            exact ⟨_, rfl⟩
          · rcases hCcases with hC | hC <;> rw [hC] at hch
            · simp at hch
            · rw [List.mem_singleton.mp hch]
              exact ⟨_, rfl⟩
      · intro i
        by_cases hi : i = c.index.getD 0
        · subst hi
          rw [lastSet_get_self]
          refine ⟨goodFrame_mainFrame f c cs, candIdx0_mainFrame f c cs, ?_⟩
          have hout0 : eventsForC (c.index.getD 0) out = [] := by
            have h2 := h.2 (c.index.getD 0)
            rw [hseen] at h2
            exact h2
          rw [eventsForC_append, eventsForC_append, hout0, eventsForC_headerChunk,
            candIdx0_mainFrame]
          rw [if_pos rfl]
          rcases hCcases with hC | hC <;> rw [hC]
          · exact ⟨hdrChoiceOf (mainFrame f c cs), [], by simp [eventsForC_nil],
              isHeaderCh_hdrChoiceOf _, by simp⟩
          · rw [eventsForC_contentChunk, candIdx0_mainFrame, if_pos rfl]
            refine ⟨hdrChoiceOf (mainFrame f c cs), [contChoiceOf (mainFrame f c cs)],
              by simp, isHeaderCh_hdrChoiceOf _, ?_⟩
            intro m hm
            rw [List.mem_singleton.mp hm]
            exact isContentCh_contChoiceOf _
        · have hnew : eventsForC i ([headerChunk incl (mainFrame f c cs)] ++
              (if c.content.isSome then
                (if resolveFinish c.finishReason = FinishVal.str "error" then []
                 else [contentChunk incl (mainFrame f c cs)])
               else [])) = [] := by
            rw [eventsForC_append, eventsForC_headerChunk, candIdx0_mainFrame,
              if_neg (fun hh => hi hh.symm)]
            rcases hCcases with hC | hC <;> rw [hC]
            · rfl
            · rw [eventsForC_contentChunk, candIdx0_mainFrame,
                if_neg (fun hh => hi hh.symm)]
              rfl
          rw [eventsForC_append, hnew, List.append_nil,
            lastSet_get_ne (c.index.getD 0) st (mainFrame f c cs) i hi]
          exact h.2 i
    | some g =>
      simp only [Option.isNone_some, Bool.false_eq_true, if_false, List.nil_append]
      constructor
      · intro ch hch
        rcases List.mem_append.mp hch with hch | hch
        · exact h.1 ch hch
        · rcases hCcases with hC | hC <;> rw [hC] at hch
          · simp at hch
          · rw [List.mem_singleton.mp hch]
            exact ⟨_, rfl⟩
      · intro i
        by_cases hi : i = c.index.getD 0
        · subst hi
          rw [lastSet_get_self]
          refine ⟨goodFrame_mainFrame f c cs, candIdx0_mainFrame f c cs, ?_⟩
          have h2 := h.2 (c.index.getD 0)
          rw [hseen] at h2
          obtain ⟨hg, hgidx, hdr, mids, hevo, hhdr, hmids⟩ := h2
          rw [eventsForC_append, hevo]
          rcases hCcases with hC | hC <;> rw [hC]
          · exact ⟨hdr, mids, by simp [eventsForC_nil], hhdr, hmids⟩
          · rw [eventsForC_contentChunk, candIdx0_mainFrame, if_pos rfl]
            refine ⟨hdr, mids ++ [contChoiceOf (mainFrame f c cs)], by simp, hhdr, ?_⟩
            intro m hm
            rcases List.mem_append.mp hm with hm | hm
            · exact hmids m hm
            · rw [List.mem_singleton.mp hm]
              exact isContentCh_contChoiceOf _
        · have hnew : eventsForC i
              (if c.content.isSome then
                (if resolveFinish c.finishReason = FinishVal.str "error" then []
                 else [contentChunk incl (mainFrame f c cs)])
               else []) = [] := by
            rcases hCcases with hC | hC <;> rw [hC]
            · rfl
            · rw [eventsForC_contentChunk, candIdx0_mainFrame,
                if_neg (fun hh => hi hh.symm)]
          rw [eventsForC_append, hnew, List.append_nil,
            lastSet_get_ne (c.index.getD 0) st (mainFrame f c cs) i hi]
          exact h.2 i

theorem toOpenAiChecks_inv (incl : Bool) {st : List (Option VFrame)} {out : List OChunk}
    (f : VFrame) (isErr : Bool) (h : StInv st out) :
    StInv (toOpenAiChecks incl st f isErr).2 (out ++ (toOpenAiChecks incl st f isErr).1) := by
  unfold toOpenAiChecks
  by_cases hping : isPing f = true
  · simp only [hping, if_true]
    exact toOpenAiMain_inv rfl h
  · simp only [hping, Bool.false_eq_true, if_false]
    cases hcand : f.candidates with
    | none =>
      by_cases hst : st.length > 0
      · simp only [if_pos hst, List.append_nil]
        exact h
      · simp only [if_neg hst]
        exact toOpenAiMain_inv rfl h
    | some l =>
      cases l with
      | nil =>
        by_cases hst : st.length > 0
        · simp only [if_pos hst, List.append_nil]
          exact h
        · simp only [if_neg hst]
          exact toOpenAiMain_inv rfl h
      | cons c cs => exact toOpenAiMain_inv hcand h

theorem toOpenAiStep_inv (incl : Bool) {st : List (Option VFrame)} {out : List OChunk}
    (l : SLine) (h : StInv st out) :
    StInv (toOpenAiStep incl st l).2 (out ++ (toOpenAiStep incl st l).1) := by
  cases l with
  | empty =>
    have h' : StInv st (out ++ []) := by rw [List.append_nil]; exact h
    exact h'
  | malformed =>
    unfold toOpenAiStep
    by_cases hst : st.length > 0
    · simp only [if_pos hst, List.append_nil]
      exact h
    · simp only [if_neg hst]
      exact toOpenAiChecks_inv incl _ _ h
  | frame f => exact toOpenAiChecks_inv incl f false h

theorem StInv_init : StInv [] [] := by
  refine ⟨by simp, fun i => ?_⟩
  rw [lastGet_nil]
  exact eventsForC_nil i

theorem runSteps_inv (incl : Bool) (lines : List SLine) :
    ∀ st out, StInv st out →
      StInv (runSteps incl st lines).2 (out ++ (runSteps incl st lines).1) := by
  induction lines with
  | nil =>
    intro st out h
    have h' : StInv st (out ++ []) := by rw [List.append_nil]; exact h
    exact h'
  | cons l ls ih =>
    intro st out h
    simp only [runSteps]
    have h2 := ih (toOpenAiStep incl st l).2 (out ++ (toOpenAiStep incl st l).1)
      (toOpenAiStep_inv incl l h)
    rw [List.append_assoc] at h2
    exact h2

theorem flush_filterMap_eq (incl : Bool) :
    ∀ st : List (Option VFrame), (∀ f, (some f) ∈ st → goodFrame f) →
      (st.filterMap fun o => (transformResponseStream incl o true false).map OEvent.chunk) =
        (st.filterMap fun o => o.map fun f => OEvent.chunk (flushTerminalChunk incl f)) := by
  intro st
  induction st with
  | nil => intro _; rfl
  | cons o rest ih =>
    intro hg
    have hrest : ∀ f, (some f) ∈ rest → goodFrame f :=
      fun f hf => hg f (List.mem_cons_of_mem _ hf)
    cases o with
    | none =>
      simp only [List.filterMap_cons, trs_none, Option.map_none']
      exact ih hrest
    | some f =>
      obtain ⟨c, cs, hcf⟩ := hg f (List.mem_cons_self _ _)
      simp only [List.filterMap_cons, trs_stop hcf, Option.map_some']
      rw [ih hrest]

theorem eventsFor_map_chunk (i : Nat) (out : List OChunk) :
    eventsFor i (out.map OEvent.chunk) = eventsForC i out := by
  unfold eventsFor eventsForC
  rw [List.filterMap_map]
  rfl

theorem eventsFor_append (i : Nat) (a b : List OEvent) :
    eventsFor i (a ++ b) = eventsFor i a ++ eventsFor i b := by
  simp [eventsFor]

theorem eventsFor_done (i : Nat) : eventsFor i [OEvent.done] = [] := rfl

theorem eventsFor_cons_term (i : Nat) (incl : Bool) (f : VFrame) (l : List OEvent) :
    eventsFor i (OEvent.chunk (flushTerminalChunk incl f) :: l) =
      (if candIdx0 f = i then [termChoiceOf f] else []) ++ eventsFor i l := by
  by_cases h : candIdx0 f = i <;>
    simp [eventsFor, flushTerminalChunk, chunkChoice, termChoiceOf, h]

theorem eventsFor_flushList_lt (incl : Bool) :
    ∀ (st : List (Option VFrame)) (n m : Nat), m < n →
      (∀ j f, st.get? j = some (some f) → candIdx0 f = n + j) →
      eventsFor m (st.filterMap fun o => o.map fun f => OEvent.chunk (flushTerminalChunk incl f))
        = [] := by
  intro st
  induction st with
  | nil => intro n m _ _; rfl
  | cons o rest ih =>
    intro n m hm hco
    have hrest : ∀ j f, rest.get? j = some (some f) → candIdx0 f = (n + 1) + j := by
      intro j f hj
      have := hco (j + 1) f (by simpa using hj)
      omega
    cases o with
    | none =>
      simp only [List.filterMap_cons, Option.map_none']
      exact ih (n + 1) m (by omega) hrest
    | some f =>
      have hcf : candIdx0 f = n := by
        have := hco 0 f (by simp)
        omega
      simp only [List.filterMap_cons, Option.map_some']
      rw [eventsFor_cons_term, if_neg (by omega), List.nil_append]
      exact ih (n + 1) m (by omega) hrest

theorem eventsFor_flushList (incl : Bool) :
    ∀ (st : List (Option VFrame)) (n i : Nat),
      (∀ j f, st.get? j = some (some f) → candIdx0 f = n + j) →
      eventsFor (n + i)
          (st.filterMap fun o => o.map fun f => OEvent.chunk (flushTerminalChunk incl f)) =
        (match lastGet st i with
         | some f => [termChoiceOf f]
         | none => []) := by
  intro st
  induction st with
  | nil =>
    intro n i _
    rw [lastGet_nil]
    rfl
  | cons o rest ih =>
    intro n i hco
    have hrest : ∀ j f, rest.get? j = some (some f) → candIdx0 f = (n + 1) + j := by
      intro j f hj
      have := hco (j + 1) f (by simpa using hj)
      omega
    cases i with
    | zero =>
      cases o with
      | none =>
        simp only [List.filterMap_cons, Option.map_none']
        rw [lastGet_cons_zero]
        exact eventsFor_flushList_lt incl rest (n + 1) (n + 0) (by omega) hrest
      | some f =>
        have hcf : candIdx0 f = n := by
          have := hco 0 f (by simp)
          omega
        simp only [List.filterMap_cons, Option.map_some']
        rw [eventsFor_cons_term, if_pos (by omega : candIdx0 f = n + 0)]
        rw [eventsFor_flushList_lt incl rest (n + 1) (n + 0) (by omega) hrest]
        rw [lastGet_cons_zero]
        simp
    | succ j =>
      have hstep : n + (j + 1) = (n + 1) + j := by omega
      have hrec := ih (n + 1) j hrest
      cases o with
      | none =>
        simp only [List.filterMap_cons, Option.map_none']
        rw [lastGet_cons_succ, hstep]
        exact hrec
      | some f =>
        have hcf : candIdx0 f = n := by
          have := hco 0 f (by simp)
          omega
        simp only [List.filterMap_cons, Option.map_some']
        rw [eventsFor_cons_term, if_neg (by omega), List.nil_append,
          lastGet_cons_succ, hstep]
        exact hrec

/-- Claim C2 — corrected.  For every candidate index that appears at all in
the translated stream, the choices emitted for that index are exactly one
header chunk (role `assistant`, empty content, null finish reason), followed
by zero or more content-delta chunks (role deleted, null finish reason),
followed by exactly one terminal chunk with empty delta: the header is
first, the terminal is last, and each occurs exactly once.  The terminal
chunk's `finish_reason` property is always set — to the resolution
`specFlushReason` of some vendor reason — but it is a non-null *string* in
the serialized chunk only when the vendor reason does not name an
`Object.prototype` member: for a reason like `"toString"` the
prototype-chain lookup leaves the inherited function in `finish_reason`,
and `JSON.stringify` drops it from the emitted chunk, so the client sees a
terminal chunk with no finish reason at all. -/
theorem per_index_chunk_discipline_amended (incl : Bool) (lines : List SLine) (i : Nat)
    (hne : eventsFor i (runTranslator incl lines) ≠ []) :
    ∃ hdr mids term, eventsFor i (runTranslator incl lines) = hdr :: (mids ++ [term]) ∧
      isHeaderCh hdr ∧ (∀ m ∈ mids, isContentCh m) ∧ isTerminalCh term ∧
      ∃ r, term.finish_reason = some (specFlushReason r) := by
  have hinv := runSteps_inv incl lines [] [] StInv_init
  rw [List.nil_append] at hinv
  have hout :
      eventsFor i (runTranslator incl lines) =
        eventsForC i (runSteps incl [] lines).1 ++
          eventsFor i (toOpenAiStreamFlush incl (runSteps incl [] lines).2) := by
    unfold runTranslator
    rw [eventsFor_append, eventsFor_map_chunk]
  by_cases hstnil : (runSteps incl [] lines).2.length > 0
  · have hgood : ∀ f, (some f) ∈ (runSteps incl [] lines).2 → goodFrame f := by
      intro f hf
      obtain ⟨j, hj⟩ := List.mem_iff_get?.mp hf
      have hlg : lastGet (runSteps incl [] lines).2 j = some f := by
        unfold lastGet
        rw [hj]
        rfl
      have h2 := hinv.2 j
      rw [hlg] at h2
      exact h2.1
    have hco : ∀ j f, (runSteps incl [] lines).2.get? j = some (some f) →
        candIdx0 f = 0 + j := by
      intro j f hj
      have hlg : lastGet (runSteps incl [] lines).2 j = some f := by
        unfold lastGet
        rw [hj]
        rfl
      have h2 := hinv.2 j
      rw [hlg] at h2
      omega
    have hflush :
        toOpenAiStreamFlush incl (runSteps incl [] lines).2 =
          ((runSteps incl [] lines).2.filterMap fun o =>
            o.map fun f => OEvent.chunk (flushTerminalChunk incl f)) ++ [OEvent.done] := by
      unfold toOpenAiStreamFlush
      rw [if_pos hstnil, flush_filterMap_eq incl _ hgood]
    have hfl := eventsFor_flushList incl (runSteps incl [] lines).2 0 i hco
    rw [Nat.zero_add] at hfl
    rw [hflush, eventsFor_append, eventsFor_done, List.append_nil, hfl] at hout
    cases hlg : lastGet (runSteps incl [] lines).2 i with
    | none =>
      exfalso
      apply hne
      have h2 := hinv.2 i
      rw [hlg] at h2
      rw [hout, hlg, h2]
      rfl
    | some f =>
      have h2 := hinv.2 i
      rw [hlg] at h2
      obtain ⟨hg, hgi, hdr, mids, hev, hhdr, hmids⟩ := h2
      rw [hout, hlg, hev]
      exact ⟨hdr, mids, termChoiceOf f, by simp, hhdr, hmids, ⟨rfl, by simp [termChoiceOf]⟩,
        headFinish f, rfl⟩
  · exfalso
    apply hne
    have hnil : (runSteps incl [] lines).2 = [] := by
      cases hs : (runSteps incl [] lines).2 with
      | nil => rfl
      | cons a b => rw [hs] at hstnil; simp at hstnil
    have h2 := hinv.2 i
    rw [hnil, lastGet_nil] at h2
    rw [hout, hnil]
    unfold toOpenAiStreamFlush
    simp only [List.length_nil, gt_iff_lt, Nat.lt_irrefl, if_false]
    rw [h2]
    rfl

/-- Witness for C2: a single `STOP` frame with content produces, for index 0,
a header, one content delta, and one terminal chunk, in that order. -/
theorem per_index_chunk_discipline_amended_witness :
    eventsFor 0 (runTranslator false
        [SLine.frame { candidates := some [{ content := some { parts := some [{ text := some "hi" }] }
                                             finishReason := some "STOP" }] }]) ≠ [] ∧
      ∃ hdr mids term,
        eventsFor 0 (runTranslator false
          [SLine.frame { candidates := some [{ content := some { parts := some [{ text := some "hi" }] }
                                               finishReason := some "STOP" }] }]) =
            hdr :: (mids ++ [term]) ∧
          isHeaderCh hdr ∧ (∀ m ∈ mids, isContentCh m) ∧ isTerminalCh term ∧
          ∃ r, term.finish_reason = some (specFlushReason r) :=
  ⟨by decide, per_index_chunk_discipline_amended false _ 0 (by decide)⟩

/-- Counterexample for C2 as stated: a stream whose only frame carries the
vendor finish reason `"toString"` ends with a terminal chunk whose
`finish_reason` is the inherited `Object.prototype.toString` function — a
property `JSON.stringify` drops, so the serialized terminal chunk carries no
(non-null) finish reason. -/
theorem terminal_finish_reason_dropped_counterexample :
    runTranslator false
        [SLine.frame { candidates := some [{ content := some { parts := some [{ text := some "hi" }] }
                                             finishReason := some "toString" }] }] =
      [OEvent.chunk { choices := [{ index := 0
                                    delta := { role := some "assistant", content := some "" }
                                    finish_reason := none }]
                      usage := none },
       OEvent.chunk { choices := [{ index := 0
                                    delta := { role := none, content := some "hi" }
                                    finish_reason := none }]
                      usage := none },
       OEvent.chunk { choices := [{ index := 0
                                    delta := { role := none, content := none }
                                    finish_reason := some (.proto (.fn "toString")) }]
                      usage := none },
       OEvent.done] ∧
      droppedByStringify (.proto (.fn "toString")) = true := by
  decide

/-! ### Flush-time terminal chunks (claim C5) -/

theorem toOpenAiStreamFlush_eq (incl : Bool) (st : List (Option VFrame))
    (hg : ∀ f, (some f) ∈ st → goodFrame f) (hne : st.length > 0) :
    toOpenAiStreamFlush incl st =
      (st.filterMap fun o => o.map fun f => OEvent.chunk (flushTerminalChunk incl f))
        ++ [OEvent.done] := by
  unfold toOpenAiStreamFlush
  rw [if_pos hne, flush_filterMap_eq incl st hg]

/-- Claim C5 — corrected.  At flush, every recorded last-seen frame produces
exactly one terminal chunk with empty delta and a finish reason resolved
through the fixed table.  Unrecognized non-empty values pass through
verbatim only when they are not `Object.prototype` property names: for a
vendor reason naming such a member (`"toString"`, `"valueOf"`,
`"constructor"`, `"__proto__"`, …) the prototype-chain lookup
`reasonsMap[r]` yields the truthy inherited member, so the `||` fallbacks do
not run and `finish_reason` holds that member — which `JSON.stringify` then
drops from the serialized chunk (function members) or renders as `{}`
(`__proto__`).  And when the recorded frame carries no finish reason at all
(or an empty-string one) the default is `"error"`, not `"stop"` as claimed
(`reasonsMap[r] || r || "error"` with the `stop` branch of
`transformResponseStream` leaving `finish_reason` untouched). -/
theorem flush_terminal_resolution_amended (incl : Bool) (st : List (Option VFrame))
    (hg : ∀ f, (some f) ∈ st → goodFrame f) (hne : st.length > 0) :
    toOpenAiStreamFlush incl st =
      (st.filterMap fun o => o.map fun f => OEvent.chunk (flushTerminalChunk incl f))
        ++ [OEvent.done] ∧
    (∀ f, (flushTerminalChunk incl f).choices = [termChoiceOf f]) ∧
    (∀ f, (termChoiceOf f).delta = { role := none, content := none }) ∧
    (∀ f c cs, f.candidates = some (c :: cs) →
      (termChoiceOf f).finish_reason = some (specFlushReason c.finishReason)) ∧
    specFlushReason (some "STOP") = .str "stop" ∧
    specFlushReason (some "MAX_TOKENS") = .str "length" ∧
    specFlushReason (some "SAFETY") = .str "content_filter" ∧
    specFlushReason (some "RECITATION") = .str "content_filter" ∧
    (∀ r, r ∉ ["STOP", "MAX_TOKENS", "SAFETY", "RECITATION"] → r ≠ "" →
      objectProtoMember r = none → specFlushReason (some r) = .str r) ∧
    (∀ r m, objectProtoMember r = some m → specFlushReason (some r) = .proto m) ∧
    (∀ r n, objectProtoMember r = some (.fn n) →
      droppedByStringify (specFlushReason (some r)) = true) ∧
    specFlushReason none = .str "error" := by
  refine ⟨toOpenAiStreamFlush_eq incl st hg hne, fun f => rfl, fun f => rfl, ?_,
    rfl, rfl, rfl, rfl, ?_, ?_, ?_, rfl⟩
  · intro f c cs h
    simp only [termChoiceOf, headFinish, h]
  · intro r h1 h2 h3
    exact specFlushReason_verbatim h1 h2 h3
  · intro r m h
    exact specFlushReason_proto h
  · intro r n h
    rw [specFlushReason_proto h]
    rfl

/-- Witness for C5: flushing a state that recorded one `MAX_TOKENS` frame. -/
theorem flush_terminal_resolution_amended_witness :
    toOpenAiStreamFlush false [some { candidates := some [{ finishReason := some "MAX_TOKENS" }] }] =
      (([some { candidates := some [{ finishReason := some "MAX_TOKENS" }] }] :
          List (Option VFrame)).filterMap fun o =>
        o.map fun f => OEvent.chunk (flushTerminalChunk false f)) ++ [OEvent.done] :=
  (flush_terminal_resolution_amended false _
    (by
      intro f hf
      simp only [List.mem_singleton, Option.some.injEq] at hf
      subst hf
      exact ⟨_, _, rfl⟩)
    (by decide)).1

/-- Counterexample for C5 as stated: a stream whose only frame has content
but no vendor finish reason closes with `finish_reason = "error"`, not the
claimed default `"stop"`. -/
theorem flush_default_stop_counterexample :
    runTranslator false
        [SLine.frame { candidates := some [{ content := some { parts := some [{ text := some "hi" }] } }] }] =
      [OEvent.chunk { choices := [{ index := 0
                                    delta := { role := some "assistant", content := some "" }
                                    finish_reason := none }]
                      usage := none },
       OEvent.chunk { choices := [{ index := 0
                                    delta := { role := none, content := none }
                                    finish_reason := some (.str "error") }]
                      usage := none },
       OEvent.done] ∧
      (some (FinishVal.str "error") : Option FinishVal) ≠ some (.str "stop") := by
  decide

/-! ### Usage metadata surfacing (claim C6) -/

theorem trs_nonstop_usage {incl : Bool} {data : Option VFrame} {first : Bool} {ch : OChunk}
    (h : transformResponseStream incl data false first = some ch) :
    ch.usage = none ∨ ch.usage = some none := by
  cases data with
  | none => cases h
  | some f =>
    cases hc : f.candidates with
    | none => rw [trs_no_candidates hc] at h; cases h
    | some cl =>
      simp only [transformResponseStream, hc] at h
      split_ifs at h <;>
        first
        | contradiction
        | (injection h with h2
           rw [← h2]
           simp)

theorem trs_usage_false {data : Option VFrame} {stop first : Bool} {ch : OChunk}
    (h : transformResponseStream false data stop first = some ch) :
    ch.usage = none := by
  cases data with
  | none => cases h
  | some f =>
    cases hc : f.candidates with
    | none => rw [trs_no_candidates hc] at h; cases h
    | some cl =>
      simp only [transformResponseStream, hc, Bool.and_false] at h
      split_ifs at h <;>
        first
        | contradiction
        | (injection h with h2
           (try rw [← h2]))

theorem toOpenAiMain_mem_trs {incl : Bool} {st : List (Option VFrame)} {f : VFrame}
    {isErr : Bool} :
    ∀ ch ∈ (toOpenAiMain incl st f isErr).1,
      ∃ data first, transformResponseStream incl data false first = some ch := by
  intro ch hch
  rcases hfc : f.candidates with - | cl
  · simp only [toOpenAiMain, hfc] at hch
    simp at hch
  · cases cl with
    | nil =>
      simp only [toOpenAiMain, hfc] at hch
      simp at hch
    | cons c cs =>
      simp only [toOpenAiMain, hfc] at hch
      by_cases hni : isErr = true ∧ st.length > 0
      · rw [if_pos hni] at hch
        simp at hch
      · rw [if_neg hni] at hch
        rcases List.mem_append.mp hch with hch | hch
        · by_cases hseen : (lastGet st (c.index.getD 0)).isNone
          · rw [if_pos hseen] at hch
            cases htr : transformResponseStream incl (some (mainFrame f c cs)) false true with
            | none => rw [htr] at hch; simp at hch
            | some ch' =>
              rw [htr] at hch
              obtain rfl := List.mem_singleton.mp hch
              exact ⟨_, _, htr⟩
          · rw [if_neg hseen] at hch
            simp at hch
        · by_cases hcon : c.content.isSome
          · rw [if_pos hcon] at hch
            cases htr : transformResponseStream incl (some (mainFrame f c cs)) false false with
            | none => rw [htr] at hch; simp at hch
            | some ch' =>
              rw [htr] at hch
              obtain rfl := List.mem_singleton.mp hch
              exact ⟨_, _, htr⟩
          · rw [if_neg hcon] at hch
            simp at hch

theorem toOpenAiChecks_mem_trs {incl : Bool} {st : List (Option VFrame)} {f : VFrame}
    {isErr : Bool} :
    ∀ ch ∈ (toOpenAiChecks incl st f isErr).1,
      ∃ data first, transformResponseStream incl data false first = some ch := by
  intro ch hch
  unfold toOpenAiChecks at hch
  by_cases hping : isPing f = true
  · simp only [hping, if_true] at hch
    exact toOpenAiMain_mem_trs ch hch
  · simp only [hping, Bool.false_eq_true, if_false] at hch
    rcases hfc : f.candidates with - | cl
    · rw [hfc] at hch
      by_cases hst : st.length > 0
      · rw [if_pos hst] at hch; simp at hch
      · rw [if_neg hst] at hch
        exact toOpenAiMain_mem_trs ch hch
    · rw [hfc] at hch
      cases cl with
      | nil =>
        by_cases hst : st.length > 0
        · rw [if_pos hst] at hch; simp at hch
        · rw [if_neg hst] at hch
          exact toOpenAiMain_mem_trs ch hch
      | cons c cs => exact toOpenAiMain_mem_trs ch hch

theorem toOpenAiStep_mem_trs {incl : Bool} {st : List (Option VFrame)} {l : SLine} :
    ∀ ch ∈ (toOpenAiStep incl st l).1,
      ∃ data first, transformResponseStream incl data false first = some ch := by
  intro ch hch
  cases l with
  | empty => simp [toOpenAiStep] at hch
  | malformed =>
    unfold toOpenAiStep at hch
    by_cases hst : st.length > 0
    · rw [if_pos hst] at hch; simp at hch
    · rw [if_neg hst] at hch
      exact toOpenAiChecks_mem_trs ch hch
  | frame f => exact toOpenAiChecks_mem_trs ch hch

/-- Claim C6 — corrected.  Usage totals are never attached to any mid-stream
chunk (`usage` there is absent or the literal `null`), and nothing carries
usage when usage reporting was not requested.  But at flush, totals are
attached to the terminal chunk of *each* recorded frame that itself carries
usage metadata — which may be zero frames (usage observed only on an
overwritten earlier frame) or several, not the claimed "exactly one". -/
theorem usage_surfacing_amended :
    (∀ (incl : Bool) (st : List (Option VFrame)) (l : SLine) (ch : OChunk),
        ch ∈ (toOpenAiStep incl st l).1 → ch.usage = none ∨ ch.usage = some none) ∧
    (∀ (st : List (Option VFrame)) (l : SLine) (ch : OChunk),
        ch ∈ (toOpenAiStep false st l).1 → ch.usage = none) ∧
    (∀ (st : List (Option VFrame)) (e : OEvent), e ∈ toOpenAiStreamFlush false st →
        hasTotals e = false) ∧
    (∀ (incl : Bool) (f : VFrame), (flushTerminalChunk incl f).usage =
        if f.usageMetadata.isSome && incl then some (some (transformUsage f.usageMetadata))
        else none) ∧
    (∀ (incl : Bool) (st : List (Option VFrame)),
        (∀ f, (some f) ∈ st → goodFrame f) → st.length > 0 →
        toOpenAiStreamFlush incl st =
          (st.filterMap fun o => o.map fun f => OEvent.chunk (flushTerminalChunk incl f))
            ++ [OEvent.done]) := by
  refine ⟨?_, ?_, ?_, fun incl f => rfl, fun incl st hg hne => toOpenAiStreamFlush_eq incl st hg hne⟩
  · intro incl st l ch hch
    obtain ⟨data, first, htr⟩ := toOpenAiStep_mem_trs ch hch
    exact trs_nonstop_usage htr
  · intro st l ch hch
    obtain ⟨data, first, htr⟩ := toOpenAiStep_mem_trs ch hch
    exact trs_usage_false htr
  · intro st e he
    unfold toOpenAiStreamFlush at he
    by_cases hst : st.length > 0
    · rw [if_pos hst] at he
      rcases List.mem_append.mp he with he | he
      · obtain ⟨o, -, ho⟩ := List.mem_filterMap.mp he
        obtain ⟨ch, htr, rfl⟩ := Option.map_eq_some'.mp ho
        have := trs_usage_false htr
        simp [hasTotals, this]
      · rw [List.mem_singleton.mp he]
        rfl
    · rw [if_neg hst] at he
      simp at he

/-- Witness for C6: the mid-stream conjunct applied to a concrete frame with
usage metadata and `include_usage` on (the chunk's usage is the literal
`null`, not totals). -/
theorem usage_surfacing_amended_witness :
    ∀ ch ∈ (toOpenAiStep true []
        (SLine.frame { candidates := some [{ content := some { parts := some [{ text := some "A" }] }
                                             finishReason := some "STOP" }]
                       usageMetadata := some { promptTokenCount := some 7
                                               candidatesTokenCount := some 3
                                               totalTokenCount := some 10 } })).1,
      ch.usage = none ∨ ch.usage = some none :=
  fun ch hch => usage_surfacing_amended.1 true [] _ ch hch

/-- Counterexample for C6 as stated: usage reporting is requested and usage
metadata is observed (on the first frame), yet no emitted chunk carries usage
totals, because a later frame for the same index without usage metadata
overwrites the recorded last-seen frame before flush — not "exactly one
terminal chunk" with totals. -/
theorem usage_single_attach_counterexample :
    runTranslator true
        [SLine.frame { candidates := some [{ content := some { parts := some [{ text := some "A" }] }
                                             finishReason := some "STOP" }]
                       usageMetadata := some { promptTokenCount := some 7
                                               candidatesTokenCount := some 3
                                               totalTokenCount := some 10 } },
         SLine.frame { candidates := some [{ content := some { parts := some [{ text := some "B" }] }
                                             finishReason := some "STOP" }] }] =
      [OEvent.chunk { choices := [{ index := 0
                                    delta := { role := some "assistant", content := some "" }
                                    finish_reason := none }]
                      usage := some none },
       OEvent.chunk { choices := [{ index := 0
                                    delta := { role := none, content := some "A" }
                                    finish_reason := none }]
                      usage := some none },
       OEvent.chunk { choices := [{ index := 0
                                    delta := { role := none, content := some "B" }
                                    finish_reason := none }]
                      usage := none },
       OEvent.chunk { choices := [{ index := 0
                                    delta := { role := none, content := none }
                                    finish_reason := some (.str "stop") }]
                      usage := none },
       OEvent.done] ∧
      (runTranslator true
        [SLine.frame { candidates := some [{ content := some { parts := some [{ text := some "A" }] }
                                             finishReason := some "STOP" }]
                       usageMetadata := some { promptTokenCount := some 7
                                               candidatesTokenCount := some 3
                                               totalTokenCount := some 10 } },
         SLine.frame { candidates := some [{ content := some { parts := some [{ text := some "B" }] }
                                             finishReason := some "STOP" }] }]).countP hasTotals = 0 := by
  decide

/-! ### Non-stream candidate transcription (claim C7) -/

/-- Claim C7 — corrected.  Candidate text parts are joined with the fixed
separator `"\n\n|>"`; the spec's two-candidate round trip holds, and the
finish-reason table maps `STOP`/`MAX_TOKENS`/`SAFETY`/`RECITATION` as
claimed, with an absent reason becoming `"error"`.  Unrecognized values pass
through verbatim only when non-empty *and* not `Object.prototype` property
names: the empty string is falsy in `reasonsMap[r] || r || "error"` and
becomes `"error"`, while a reason like `"toString"` or `"valueOf"` finds the
truthy inherited member on the prototype chain, which is left in
`finish_reason` and then dropped by `JSON.stringify` from the serialized
response (`"__proto__"` serializes as an empty object). -/
theorem nonstream_candidate_transcription_amended :
    (∀ (c : GCand) (ct : GContentV) (parts : List GPart),
        c.content = some ct → ct.parts = some parts →
        (transformCandidatesMessage (some c)).message.content =
          String.intercalate SEP (parts.map fun p => p.text.getD "")) ∧
    (processChoices (some { candidates := some [exampleCand 0 "STOP", exampleCand 1 "WEIRD"] }) =
      [{ index := 0
         message := { role := "assistant", content := "Hello, \n\n|>world!" }
         finish_reason := .str "stop" },
       { index := 1
         message := { role := "assistant", content := "Hello, \n\n|>world!" }
         finish_reason := .str "WEIRD" }]) ∧
    (∀ c : GCand, c.finishReason = some "STOP" →
        (transformCandidatesMessage (some c)).finish_reason = .str "stop") ∧
    (∀ c : GCand, c.finishReason = some "MAX_TOKENS" →
        (transformCandidatesMessage (some c)).finish_reason = .str "length") ∧
    (∀ c : GCand, c.finishReason = some "SAFETY" →
        (transformCandidatesMessage (some c)).finish_reason = .str "content_filter") ∧
    (∀ c : GCand, c.finishReason = some "RECITATION" →
        (transformCandidatesMessage (some c)).finish_reason = .str "content_filter") ∧
    (∀ (c : GCand) (r : String), c.finishReason = some r →
        r ∉ ["STOP", "MAX_TOKENS", "SAFETY", "RECITATION"] → r ≠ "" →
        objectProtoMember r = none →
        (transformCandidatesMessage (some c)).finish_reason = .str r) ∧
    (∀ (c : GCand) (r : String) (m : ProtoMember), c.finishReason = some r →
        objectProtoMember r = some m →
        (transformCandidatesMessage (some c)).finish_reason = .proto m) ∧
    (∀ c : GCand, c.finishReason = none →
        (transformCandidatesMessage (some c)).finish_reason = .str "error") := by
  have hres : ∀ (c : GCand), (transformCandidatesMessage (some c)).finish_reason =
      specFlushReason c.finishReason := by
    intro c
    show resolveFinish c.finishReason = _
    exact resolveFinish_eq_spec c.finishReason
  refine ⟨?_, by decide, ?_, ?_, ?_, ?_, ?_, ?_, ?_⟩
  · intro c ct parts h1 h2
    simp only [transformCandidatesMessage, transformCandidates, candContentText, h1, h2]
  · intro c h
    rw [hres, h]
    rfl
  · intro c h
    rw [hres, h]
    rfl
  · intro c h
    rw [hres, h]
    rfl
  · intro c h
    rw [hres, h]
    rfl
  · intro c r h h1 h2 h3
    rw [hres, h]
    exact specFlushReason_verbatim h1 h2 h3
  · intro c r m h hm
    rw [hres, h]
    exact specFlushReason_proto hm
  · intro c h
    rw [hres, h]
    rfl

/-- Witness for C7: the join clause at a concrete two-part candidate, and the
verbatim clause at `"WEIRD"`. -/
theorem nonstream_candidate_transcription_amended_witness :
    (transformCandidatesMessage (some (exampleCand 0 "STOP"))).message.content =
      String.intercalate SEP
        (([{ text := some "Hello, " }, { text := some "world!" }] : List GPart).map
          fun p => p.text.getD "") ∧
    (transformCandidatesMessage (some { finishReason := some "WEIRD" })).finish_reason =
      .str "WEIRD" :=
  ⟨nonstream_candidate_transcription_amended.1 _ _ _ rfl rfl,
   nonstream_candidate_transcription_amended.2.2.2.2.2.2.1 _ "WEIRD" rfl (by decide) (by decide)
     (by decide)⟩

/-- Counterexample for C7 as stated: the unrecognized (empty-string) vendor
finish reason is not passed through verbatim — it resolves to `"error"` —
and the unrecognized non-empty reason `"toString"` is not passed through
verbatim either: the prototype-chain lookup leaves the inherited function in
`finish_reason`, which `JSON.stringify` drops. -/
theorem finish_reason_verbatim_counterexample :
    (transformCandidatesMessage (some { finishReason := some "" })).finish_reason =
      .str "error" ∧
    ((FinishVal.str "error") ≠ .str "") ∧
    (transformCandidatesMessage (some { finishReason := some "toString" })).finish_reason =
      .proto (.fn "toString") ∧
    droppedByStringify (.proto (.fn "toString")) = true := by
  decide

/-! ### System-only conversations (claim C8) -/

theorem foldl_sys_contents :
    ∀ (msgs : List OMsg) (si : Option GMsgContent),
      (∀ m ∈ msgs, m.role = some "system") →
      (msgs.foldl transformMessagesStep (si, [])).2 = [] := by
  intro msgs
  induction msgs with
  | nil => intro si _; rfl
  | cons m rest ih =>
    intro si hsys
    have hm : m.role = some "system" := hsys m (List.mem_cons_self _ _)
    simp only [List.foldl_cons, transformMessagesStep, hm, if_pos]
    exact ih _ fun x hx => hsys x (List.mem_cons_of_mem _ hx)

theorem foldl_sys_some :
    ∀ (msgs : List OMsg) (acc : Option GMsgContent × List GMsgContent),
      (acc.1.isSome = true ∨ msgs ≠ []) →
      (∀ m ∈ msgs, m.role = some "system") →
      ((msgs.foldl transformMessagesStep acc).1).isSome = true := by
  intro msgs
  induction msgs with
  | nil =>
    intro acc h _
    rcases h with h | h
    · exact h
    · exact absurd rfl h
  | cons m rest ih =>
    intro acc _ hsys
    have hm : m.role = some "system" := hsys m (List.mem_cons_self _ _)
    simp only [List.foldl_cons, transformMessagesStep, hm, if_pos]
    exact ih _ (Or.inl rfl) fun x hx => hsys x (List.mem_cons_of_mem _ hx)

/-- Claim C8 — corrected.  A conversation consisting only of system messages
translates to a non-empty `contents` holding exactly one synthetic minimal
turn — but that turn's role is `"model"`, not `"user"` as claimed:
the source pushes `{ role: "model", parts: { text: " " } }`. -/
theorem system_only_synthetic_turn_amended (msgs : List OMsg) (hne : msgs ≠ [])
    (hsys : ∀ m ∈ msgs, m.role = some "system") :
    ∃ tm, transformMessages (some msgs) = some tm ∧
      tm.contents = [{ role := some "model", parts := .single { text := some " " } }] ∧
      tm.contents ≠ [] := by
  have hfold := foldl_sys_contents msgs none hsys
  have hsome := foldl_sys_some msgs (none, []) (Or.inr hne) hsys
  refine ⟨{ system_instruction := (msgs.foldl transformMessagesStep (none, [])).1
            contents := [{ role := some "model", parts := .single { text := some " " } }] },
    ?_, rfl, by simp⟩
  simp only [transformMessages]
  rw [hfold, hsome]
  simp

/-- Witness for C8: a single system message. -/
theorem system_only_synthetic_turn_amended_witness :
    ∃ tm, transformMessages (some [{ role := some "system", content := some "Be brief." }]) =
        some tm ∧
      tm.contents = [{ role := some "model", parts := .single { text := some " " } }] ∧
      tm.contents ≠ [] :=
  system_only_synthetic_turn_amended _ (by decide) (by decide)

/-- Counterexample for C8 as stated: the synthetic minimal turn inserted for
a system-only conversation has role `"model"`, not `"user"`. -/
theorem system_only_synthetic_turn_counterexample :
    transformMessages (some [{ role := some "system", content := some "Be brief." }]) =
      some { system_instruction := some { role := none, parts := .arr [{ text := some "Be brief." }] }
             contents := [{ role := some "model", parts := .single { text := some " " } }] } ∧
      (some "model" : Option String) ≠ some "user" := by
  decide

/-! ### `response_format` handling (claim C9) -/

/-- Claim C9 — corrected.  The `responseMimeType`/`responseSchema` derivation
is as claimed: `json_schema` with a truthy schema containing `enum` gives
`text/x.enum`; `json_schema` otherwise and `json_object` give
`application/json` (schema passed through when present); `text` gives
`text/plain`; any other type raises `HttpError(400)` from `transformConfig`
before any upstream call.  But `handleCompletions` catches that error in its
own `try … catch` and answers the client with an HTTP **200** error payload,
not a 400 rejection. -/
theorem response_format_mapping_amended :
    (∀ (req : CReq) (rf : RespFormat) (js : JsonSchemaField) (s : JValue),
        req.response_format = some rf → rf.type = some "json_schema" →
        rf.json_schema = some js → js.schema = some s → jsTruthy s = true →
        jsHasEnum s = .ok true →
        ∃ cfg, transformConfig req = .ok cfg ∧
          cfg.responseMimeType = some "text/x.enum" ∧ cfg.responseSchema = some s) ∧
    (∀ (req : CReq) (rf : RespFormat) (js : JsonSchemaField) (s : JValue),
        req.response_format = some rf → rf.type = some "json_schema" →
        rf.json_schema = some js → js.schema = some s → jsTruthy s = true →
        jsHasEnum s = .ok false →
        ∃ cfg, transformConfig req = .ok cfg ∧
          cfg.responseMimeType = some "application/json" ∧ cfg.responseSchema = some s) ∧
    (∀ (req : CReq) (rf : RespFormat),
        req.response_format = some rf → rf.type = some "json_schema" →
        rf.json_schema.bind (fun js => js.schema) = none →
        ∃ cfg, transformConfig req = .ok cfg ∧
          cfg.responseMimeType = some "application/json" ∧ cfg.responseSchema = none) ∧
    (∀ (req : CReq) (rf : RespFormat),
        req.response_format = some rf → rf.type = some "json_object" →
        ∃ cfg, transformConfig req = .ok cfg ∧
          cfg.responseMimeType = some "application/json") ∧
    (∀ (req : CReq) (rf : RespFormat),
        req.response_format = some rf → rf.type = some "text" →
        ∃ cfg, transformConfig req = .ok cfg ∧
          cfg.responseMimeType = some "text/plain") ∧
    (∀ (req : CReq) (rf : RespFormat) (t : String),
        req.response_format = some rf → rf.type = some t →
        t ≠ "json_schema" → t ≠ "json_object" → t ≠ "text" →
        transformConfig req = .error (.http 400 "Unsupported response_format.type") ∧
        completionsEarly req = .errorResponse 200) := by
  refine ⟨?_, ?_, ?_, ?_, ?_, ?_⟩
  · intro req rf js s hrf ht hjs hsch htr hen
    have hs? : rf.json_schema.bind (fun j => j.schema) = some s := by
      rw [hjs]
      simpa using hsch
    have heq : transformConfig req =
        .ok { req.fields.foldl applyField {} with
              responseSchema := some s, responseMimeType := some "text/x.enum" } := by
      simp only [transformConfig, hrf, ht, hs?, htr, hen]
      simp
    exact ⟨_, heq, rfl, rfl⟩
  · intro req rf js s hrf ht hjs hsch htr hen
    have hs? : rf.json_schema.bind (fun j => j.schema) = some s := by
      rw [hjs]
      simpa using hsch
    have heq : transformConfig req =
        .ok { req.fields.foldl applyField {} with
              responseSchema := some s, responseMimeType := some "application/json" } := by
      simp only [transformConfig, hrf, ht, hs?, htr, hen]
      simp
    exact ⟨_, heq, rfl, rfl⟩
  · intro req rf hrf ht hs?
    have heq : transformConfig req =
        .ok { req.fields.foldl applyField {} with
              responseSchema := none, responseMimeType := some "application/json" } := by
      simp only [transformConfig, hrf, ht, hs?]
      simp
    exact ⟨_, heq, rfl, rfl⟩
  · intro req rf hrf ht
    have heq : transformConfig req =
        .ok { req.fields.foldl applyField {} with
              responseMimeType := some "application/json" } := by
      simp only [transformConfig, hrf, ht]
      simp
    exact ⟨_, heq, rfl⟩
  · intro req rf hrf ht
    have heq : transformConfig req =
        .ok { req.fields.foldl applyField {} with responseMimeType := some "text/plain" } := by
      simp only [transformConfig, hrf, ht]
      simp
    exact ⟨_, heq, rfl⟩
  · intro req rf t hrf ht h1 h2 h3
    have hcfg : transformConfig req = .error (.http 400 "Unsupported response_format.type") := by
      simp only [transformConfig, hrf, ht]
      simp [h1, h2, h3]
    refine ⟨hcfg, ?_⟩
    simp only [completionsEarly, transformRequest, hcfg, Except.map]

/-- Witness for C9: the specification's own enum example
`{"type":"json_schema","json_schema":{"schema":{"enum":["a","b"]}}}`. -/
theorem response_format_mapping_amended_witness :
    ∃ cfg, transformConfig
        { response_format := some
            { type := some "json_schema"
              json_schema := some { schema := some (.obj [("enum", .arr [.str "a", .str "b"])]) } } } =
        .ok cfg ∧
      cfg.responseMimeType = some "text/x.enum" ∧
      cfg.responseSchema = some (.obj [("enum", .arr [.str "a", .str "b"])]) :=
  response_format_mapping_amended.1 _ _ _ _ rfl rfl rfl rfl rfl rfl

/-- Counterexample for C9 as stated: an unsupported `response_format.type`
is answered with an HTTP 200 error payload, not a 400 rejection — the 400
`HttpError` thrown by `transformConfig` is swallowed by `handleCompletions`'s
`catch`, which builds a status-200 response for streaming and non-streaming
requests alike. -/
theorem response_format_http400_counterexample :
    completionsEarly { response_format := some { type := some "xml" } } =
        .errorResponse 200 ∧
      (EarlyAction.errorResponse 200 ≠ EarlyAction.errorResponse 400) := by
  refine ⟨rfl, ?_⟩
  intro h
  injection h with h'
  exact absurd h' (by decide)

/-! ### Generation-config field mapping (claim C10) -/

theorem lastVal_or_step (K : List String) (k : String) (v : JValue)
    (rest : List (String × JValue)) (cf : Option JValue) :
    (lastVal K ((k, v) :: rest)).or cf =
      (lastVal K rest).or (if k ∈ K then some v else cf) := by
  cases hlv : lastVal K rest <;> by_cases h : k ∈ K <;>
    simp [lastVal, hlv, h, Option.or]

theorem applyField_fields (c : GenCfg) (k : String) (v : JValue) :
    (applyField c (k, v)).stopSequences =
      (if k ∈ ["stop"] then some v else c.stopSequences) ∧
    (applyField c (k, v)).candidateCount =
      (if k ∈ ["n"] then some v else c.candidateCount) ∧
    (applyField c (k, v)).maxOutputTokens =
      (if k ∈ ["max_tokens", "max_completion_tokens"] then some v else c.maxOutputTokens) ∧
    (applyField c (k, v)).temperature =
      (if k ∈ ["temperature"] then some v else c.temperature) ∧
    (applyField c (k, v)).topP = (if k ∈ ["top_p"] then some v else c.topP) ∧
    (applyField c (k, v)).topK = (if k ∈ ["top_k"] then some v else c.topK) ∧
    (applyField c (k, v)).frequencyPenalty =
      (if k ∈ ["frequency_penalty"] then some v else c.frequencyPenalty) ∧
    (applyField c (k, v)).presencePenalty =
      (if k ∈ ["presence_penalty"] then some v else c.presencePenalty) ∧
    (applyField c (k, v)).responseMimeType = c.responseMimeType ∧
    (applyField c (k, v)).responseSchema = c.responseSchema ∧
    (applyField c (k, v)).junk = applyJunk c.junk (k, v) := by
  by_cases h1 : k = "stop"
  · subst h1; simp [applyField, fieldsMapFn, setCfgField, applyJunk, objectProtoMember]
  · by_cases h2 : k = "n"
    · subst h2; simp [applyField, fieldsMapFn, setCfgField, applyJunk, objectProtoMember]
    · by_cases h3 : k = "max_tokens"
      · subst h3; simp [applyField, fieldsMapFn, setCfgField, applyJunk, objectProtoMember]
      · by_cases h4 : k = "max_completion_tokens"
        · subst h4; simp [applyField, fieldsMapFn, setCfgField, applyJunk, objectProtoMember]
        · by_cases h5 : k = "temperature"
          · subst h5; simp [applyField, fieldsMapFn, setCfgField, applyJunk, objectProtoMember]
          · by_cases h6 : k = "top_p"
            · subst h6; simp [applyField, fieldsMapFn, setCfgField, applyJunk, objectProtoMember]
            · by_cases h7 : k = "top_k"
              · subst h7
                simp [applyField, fieldsMapFn, setCfgField, applyJunk, objectProtoMember]
              · by_cases h8 : k = "frequency_penalty"
                · subst h8
                  simp [applyField, fieldsMapFn, setCfgField, applyJunk, objectProtoMember]
                · by_cases h9 : k = "presence_penalty"
                  · subst h9
                    simp [applyField, fieldsMapFn, setCfgField, applyJunk, objectProtoMember]
                  · cases hpm : objectProtoMember k <;>
                      simp [applyField, fieldsMapFn, setCfgField, applyJunk, hpm,
                        h1, h2, h3, h4, h5, h6, h7, h8, h9]

theorem applyFields_char :
    ∀ (fields : List (String × JValue)) (c : GenCfg),
      fields.foldl applyField c =
        { stopSequences := (lastVal ["stop"] fields).or c.stopSequences
          candidateCount := (lastVal ["n"] fields).or c.candidateCount
          maxOutputTokens :=
            (lastVal ["max_tokens", "max_completion_tokens"] fields).or c.maxOutputTokens
          temperature := (lastVal ["temperature"] fields).or c.temperature
          topP := (lastVal ["top_p"] fields).or c.topP
          topK := (lastVal ["top_k"] fields).or c.topK
          frequencyPenalty := (lastVal ["frequency_penalty"] fields).or c.frequencyPenalty
          presencePenalty := (lastVal ["presence_penalty"] fields).or c.presencePenalty
          responseMimeType := c.responseMimeType
          responseSchema := c.responseSchema
          junk := fields.foldl applyJunk c.junk } := by
  intro fields
  induction fields with
  | nil =>
    intro c
    simp [lastVal, Option.none_or]
  | cons kv rest ih =>
    intro c
    obtain ⟨k, v⟩ := kv
    simp only [List.foldl_cons]
    rw [ih (applyField c (k, v))]
    have hf := applyField_fields c k v
    rw [lastVal_or_step, lastVal_or_step, lastVal_or_step, lastVal_or_step, lastVal_or_step,
      lastVal_or_step, lastVal_or_step, lastVal_or_step]
    rw [hf.1, hf.2.1, hf.2.2.1, hf.2.2.2.1, hf.2.2.2.2.1, hf.2.2.2.2.2.1,
      hf.2.2.2.2.2.2.1, hf.2.2.2.2.2.2.2.1, hf.2.2.2.2.2.2.2.2.1,
      hf.2.2.2.2.2.2.2.2.2.1, hf.2.2.2.2.2.2.2.2.2.2]

theorem junkVal_setJunkEntry :
    ∀ (j : List (ProtoMember × JValue)) (m0 : ProtoMember) (v : JValue) (m : ProtoMember),
      junkVal (setJunkEntry j m0 v) m = if m0 = m then some v else junkVal j m := by
  intro j
  induction j with
  | nil =>
    intro m0 v m
    by_cases h : m0 = m <;> simp [setJunkEntry, junkVal, h]
  | cons e rest ih =>
    intro m0 v m
    obtain ⟨m1, v1⟩ := e
    by_cases h1 : m1 = m0
    · subst h1
      simp only [setJunkEntry, if_pos rfl]
      by_cases h : m1 = m <;> simp [junkVal, h]
    · simp only [setJunkEntry, if_neg h1]
      by_cases h : m1 = m
      · subst h
        have hne : ¬m0 = m1 := fun he => h1 he.symm
        simp [junkVal, hne]
      · simp [junkVal, h, ih]

theorem lastProtoVal_or_step (m : ProtoMember) (k : String) (v : JValue)
    (rest : List (String × JValue)) (z : Option JValue) :
    (lastProtoVal m ((k, v) :: rest)).or z =
      (lastProtoVal m rest).or (if objectProtoMember k = some m then some v else z) := by
  cases hlv : lastProtoVal m rest <;> by_cases h : objectProtoMember k = some m <;>
    simp [lastProtoVal, hlv, h, Option.or]

theorem junkVal_applyJunk (j : List (ProtoMember × JValue)) (k : String) (v : JValue)
    (m : ProtoMember) :
    junkVal (applyJunk j (k, v)) m =
      if objectProtoMember k = some m then some v else junkVal j m := by
  cases hpm : objectProtoMember k with
  | none => simp [applyJunk, hpm]
  | some m0 =>
    simp only [applyJunk, hpm, junkVal_setJunkEntry]
    by_cases h : m0 = m
    · subst h
      simp
    · have hne : ¬(some m0 = some m) := by simp [h]
      simp [h, hne]

theorem junkVal_foldl_applyJunk :
    ∀ (fields : List (String × JValue)) (j : List (ProtoMember × JValue)) (m : ProtoMember),
      junkVal (fields.foldl applyJunk j) m = (lastProtoVal m fields).or (junkVal j m) := by
  intro fields
  induction fields with
  | nil =>
    intro j m
    simp [lastProtoVal, Option.none_or]
  | cons kv rest ih =>
    intro j m
    obtain ⟨k, v⟩ := kv
    simp only [List.foldl_cons]
    rw [ih, lastProtoVal_or_step, junkVal_applyJunk]

theorem foldl_applyJunk_nil :
    ∀ fields : List (String × JValue), (∀ kv ∈ fields, objectProtoMember kv.1 = none) →
      fields.foldl applyJunk [] = [] := by
  intro fields
  induction fields with
  | nil => intro _; rfl
  | cons kv rest ih =>
    intro hnp
    have hkv : objectProtoMember kv.1 = none := hnp kv (List.mem_cons_self _ _)
    have hstep : applyJunk [] kv = [] := by
      obtain ⟨k, v⟩ := kv
      simp only [applyJunk]
      rw [hkv]
    rw [List.foldl_cons, hstep]
    exact ih fun x hx => hnp x (List.mem_cons_of_mem _ hx)

/-- Claim C10 — corrected.  Building the generation config never fails on an
unrecognized option, and (absent a `response_format`) the named vendor
fields hold exactly the renamed values of the mapped keys present in the
request — each carrying the value of the last occurrence of its source
key(s).  A key outside the table is silently ignored only when it is also
not an `Object.prototype` property name: `fieldsMap[key]` for a key like
`"toString"` or `"constructor"` finds the truthy inherited member, so
`cfg[matchedKey] = req[key]` writes a junk property (keyed by the string
coercion of that member) holding the request's value, last occurrence
winning — the config is then *not* just the renamed mapped values.  A
supported `response_format` only adds the derived `responseMimeType` (and
`responseSchema`). -/
theorem config_unknown_keys_amended :
    (∀ req : CReq, req.response_format = none →
        transformConfig req = .ok (specConfigOfFields req.fields)) ∧
    (∀ (pre post : List (String × JValue)) (k : String) (v : JValue) (c : GenCfg),
        fieldsMapFn k = .jsUndefined →
        (pre ++ (k, v) :: post).foldl applyField c = (pre ++ post).foldl applyField c) ∧
    (∀ (fields : List (String × JValue)) (m : ProtoMember),
        junkVal (specConfigOfFields fields).junk m = lastProtoVal m fields) ∧
    (∀ (fields : List (String × JValue)),
        (∀ kv ∈ fields, objectProtoMember kv.1 = none) →
        (specConfigOfFields fields).junk = []) ∧
    (∀ (req : CReq) (rf : RespFormat),
        req.response_format = some rf → rf.type = some "text" →
        transformConfig req =
          .ok { specConfigOfFields req.fields with responseMimeType := some "text/plain" }) := by
  refine ⟨?_, ?_, ?_, ?_, ?_⟩
  · intro req h
    simp only [transformConfig, h]
    rw [applyFields_char]
    simp [specConfigOfFields, Option.or_none]
  · intro pre post k v c hk
    rw [List.foldl_append, List.foldl_append]
    simp only [List.foldl_cons]
    have ha : applyField (pre.foldl applyField c) (k, v) = pre.foldl applyField c := by
      simp [applyField, hk]
    rw [ha]
  · intro fields m
    show junkVal (fields.foldl applyJunk []) m = _
    rw [junkVal_foldl_applyJunk]
    simp [junkVal, Option.or_none]
  · intro fields hnp
    exact foldl_applyJunk_nil fields hnp
  · intro req rf hrf ht
    simp only [transformConfig, hrf, ht]
    rw [applyFields_char]
    simp [specConfigOfFields, Option.or_none]

/-- Witness for C10: a request carrying one mapped key and one unknown
(non-prototype) key translates without error to exactly the renamed mapped
value, with no junk entry. -/
theorem config_unknown_keys_amended_witness :
    transformConfig { fields := [("temperature", JValue.num 1), ("foo", JValue.str "x")] } =
      .ok (specConfigOfFields [("temperature", JValue.num 1), ("foo", JValue.str "x")]) :=
  config_unknown_keys_amended.1 _ rfl

/-- Counterexample for C10 as stated: the request key `"toString"` is not in
`fieldsMap`, yet it is not silently ignored — `fieldsMap["toString"]` finds
the inherited `Object.prototype.toString` function, which is truthy, so
`cfg[matchedKey] = req[key]` writes a garbage property into the generation
config, and the result is not the config holding only renamed mapped values
(here: the empty config). -/
theorem config_proto_key_counterexample :
    transformConfig { fields := [("toString", JValue.num 5)] } =
      .ok { junk := [(.fn "toString", JValue.num 5)] } ∧
    transformConfig { fields := [("toString", JValue.num 5)] } ≠ .ok ({} : GenCfg) := by
  have h1 : transformConfig { fields := [("toString", JValue.num 5)] } =
      .ok { junk := [(ProtoMember.fn "toString", JValue.num 5)] } := rfl
  refine ⟨h1, ?_⟩
  rw [h1]
  intro h
  injection h with h2
  have h3 := congrArg GenCfg.junk h2
  simp at h3

end OpenAIGemini
